import Mathlib

/-!
Shallow embedding of the mbo order-book replay engine
(src/mbo-backend/src/datatypes/{book,market,price_level}.rs).

Rust BTreeMap and HashMap values are modelled as association lists; the
BTreeMap's ordered iteration is recovered by sorting keys where the source
iterates in key order.  u32 arithmetic that can overflow is taken mod 2^32.
Fallible `&mut self` methods are modelled in state-passing style: each returns
the post-call state together with an `Except String` outcome, so that the
state left behind by an early-error return is observable, exactly as the Rust
caller observes the mutated `self` after an `Err`.
-/

namespace MBO

/-- 2^32, the modulus of Rust u32 arithmetic. -/
def U32MOD : Nat := 4294967296

/-- `UNDEF_PRICE` sentinel from databento dbn: i64::MAX. -/
def UNDEF_PRICE : Int := 9223372036854775807

/-- dbn `Side`; `noSide` is the decoded `Side::None`. -/
inductive Side where
  | bid
  | ask
  | noSide
deriving DecidableEq

/-- dbn `Action` variants used by `Book::apply`. -/
inductive Action where
  | add
  | cancel
  | modify
  | clear
  | trade
  | fill
  | noAction
deriving DecidableEq

/-- The fields of `MboMsg` consumed by the core.  `action = none` models a
message whose action byte fails to decode. -/
structure Msg where
  order_id : Nat
  price : Int
  size : Nat
  side : Side
  action : Option Action
  is_tob : Bool
  is_last : Bool
  instrument_id : Nat
  publisher : Nat
deriving DecidableEq

/-- A price level: the FIFO queue of resting orders (Rust `VecDeque<MboMsg>`). -/
abbrev Level : Type := List Msg

instance {ε α : Type} [DecidableEq ε] [DecidableEq α] : DecidableEq (Except ε α) :=
  fun x y =>
    match x, y with
    | .ok a, .ok b =>
      if h : a = b then .isTrue (by rw [h])
      else .isFalse (by intro hc; cases hc; exact h rfl)
    | .ok _, .error _ => .isFalse (by intro hc; cases hc)
    | .error _, .ok _ => .isFalse (by intro hc; cases hc)
    | .error e, .error f =>
      if h : e = f then .isTrue (by rw [h])
      else .isFalse (by intro hc; cases hc; exact h rfl)

/-! ### Association-list maps

`alGet`, `alInsert`, `alErase`, `alUpsert` model `HashMap`/`BTreeMap`
`get`, `insert`, `remove`, and `entry(k).or_default()` followed by an update.
The list order is irrelevant to all of them. -/

/-- Map lookup. -/
def alGet {α β : Type} [DecidableEq α] (k : α) : List (α × β) → Option β
  | [] => none
  | p :: l => if p.1 = k then some p.2 else alGet k l

/-- Map insert (replace if the key is present, append otherwise). -/
def alInsert {α β : Type} [DecidableEq α] (k : α) (v : β) : List (α × β) → List (α × β)
  | [] => [(k, v)]
  | p :: l => if p.1 = k then (k, v) :: l else p :: alInsert k v l

/-- Map removal. -/
def alErase {α β : Type} [DecidableEq α] (k : α) : List (α × β) → List (α × β)
  | [] => []
  | p :: l => if p.1 = k then alErase k l else p :: alErase k l

/-- `entry(k).or_default()` followed by an in-place update `f`. -/
def alUpsert {α β : Type} [DecidableEq α] (k : α) (dflt : β) (f : β → β) :
    List (α × β) → List (α × β)
  | [] => [(k, f dflt)]
  | p :: l => if p.1 = k then (k, f p.2) :: l else p :: alUpsert k dflt f l

/-- Key membership. -/
def alContains {α β : Type} [DecidableEq α] (k : α) (l : List (α × β)) : Bool :=
  (alGet k l).isSome

/-- Maximum key of a map (`keys().rev().next()` on a `BTreeMap`). -/
def maxKey? {β : Type} : List (Int × β) → Option Int
  | [] => none
  | p :: l =>
    match maxKey? l with
    | none => some p.1
    | some m => some (max p.1 m)

/-- Minimum key of a map (`keys().next()` on a `BTreeMap`). -/
def minKey? {β : Type} : List (Int × β) → Option Int
  | [] => none
  | p :: l =>
    match minKey? l with
    | none => some p.1
    | some m => some (min p.1 m)

/-- A map's maximum key is one of its keys. -/
theorem maxKey?_mem {β : Type} {l : List (Int × β)} {k : Int}
    (h : maxKey? l = some k) : k ∈ l.map Prod.fst := by
  induction l generalizing k with
  | nil => simp [maxKey?] at h
  | cons p l ih =>
    simp only [maxKey?] at h
    simp only [List.map_cons, List.mem_cons]
    cases hl : maxKey? l with
    | none =>
      rw [hl] at h
      simp only [Option.some.injEq] at h
      left
      omega
    | some m =>
      rw [hl] at h
      simp only [Option.some.injEq] at h
      rcases max_choice p.1 m with hc | hc
      · left
        omega
      · right
        have hkm : k = m := by omega
        exact hkm ▸ ih hl

/-- Erasure never lengthens an association list. -/
theorem alErase_length_le {α β : Type} [DecidableEq α] (k : α) (l : List (α × β)) :
    (alErase k l).length ≤ l.length := by
  induction l with
  | nil => simp [alErase]
  | cons p l ih =>
    simp only [alErase]
    by_cases hp : p.1 = k
    · rw [if_pos hp]
      simp only [List.length_cons]
      omega
    · simp only [if_neg hp, List.length_cons]
      omega

/-- Erasing a present key strictly shrinks an association list. -/
theorem alErase_length_lt {α β : Type} [DecidableEq α] {k : α} {l : List (α × β)}
    (h : k ∈ l.map Prod.fst) : (alErase k l).length < l.length := by
  induction l with
  | nil => simp at h
  | cons p l ih =>
    simp only [alErase]
    by_cases hp : p.1 = k
    · rw [if_pos hp]
      have hle := alErase_length_le k l
      simp only [List.length_cons]
      omega
    · simp only [if_neg hp, List.length_cons]
      have hm : k ∈ l.map Prod.fst := by
        simp only [List.map_cons, List.mem_cons] at h
        rcases h with h | h
        · exact absurd h.symm hp
        · exact h
      exact Nat.succ_lt_succ (ih hm)

/-- Insert into a descending-sorted list of keys. -/
def insertDesc (k : Int) : List Int → List Int
  | [] => [k]
  | x :: xs => if x ≤ k then k :: x :: xs else x :: insertDesc k xs

/-- Keys sorted in descending order (`BTreeMap.iter().rev()`). -/
def sortDesc (l : List Int) : List Int := l.foldr insertDesc []

/-- Insert into an ascending-sorted list of keys. -/
def insertAsc (k : Int) : List Int → List Int
  | [] => [k]
  | x :: xs => if k ≤ x then k :: x :: xs else x :: insertAsc k xs

/-- Keys sorted in ascending order (`BTreeMap.iter()`). -/
def sortAsc (l : List Int) : List Int := l.foldr insertAsc []

/-! ### PriceLevel (src/mbo-backend/src/datatypes/price_level.rs) -/

/-- Derived view of one price level: price, aggregate size, non-TOB order
count. -/
structure PriceLevel where
  price : Int
  size : Nat
  count : Nat
deriving DecidableEq

/-- `PriceLevel::new`: fold over the orders of a level; TOB orders contribute
size but not count.  u32 additions wrap mod 2^32. -/
def PriceLevel.new (price : Int) (orders : List Msg) : PriceLevel :=
  orders.foldl
    (fun lv o =>
      { lv with
        count := if o.is_tob then lv.count else (lv.count + 1) % U32MOD
        size := (lv.size + o.size) % U32MOD })
    { price := price, size := 0, count := 0 }

/-! ### Book state (src/mbo-backend/src/datatypes/book.rs) -/

/-- The per-(instrument, publisher) book: id index plus both side indexes. -/
structure Book where
  orders_by_id : List (Nat × (Side × Int))
  offers : List (Int × Level)
  bids : List (Int × Level)
deriving DecidableEq

/-- `Book::new` / `Book::default`. -/
def Book.empty : Book := { orders_by_id := [], offers := [], bids := [] }

/-- `side_levels` for a side already known to be valid; `noSide` yields the
empty map (all mutating paths guard `noSide` with an explicit error first). -/
def Book.getSide (b : Book) : Side → List (Int × Level)
  | .ask => b.offers
  | .bid => b.bids
  | .noSide => []

/-- Writing one side's level map back into the book. -/
def Book.setSide (b : Book) : Side → List (Int × Level) → Book
  | .ask, m => { b with offers := m }
  | .bid, m => { b with bids := m }
  | .noSide, _ => b

/-! ### Book queries -/

/-- Order ids of a level's orders. -/
def levelIds (lv : Level) : List Nat := lv.map (fun o => o.order_id)

/-- `Book::bid_level`: the idx-th level of the bid side in descending price
order, summarized as a `PriceLevel`. -/
def Book.bidLevel (b : Book) (idx : Nat) : Option PriceLevel :=
  ((sortDesc (b.bids.map Prod.fst)).get? idx).bind
    (fun k => (alGet k b.bids).map (fun lv => PriceLevel.new k lv))

/-- `Book::ask_level`: the idx-th level of the ask side in ascending price
order. -/
def Book.askLevel (b : Book) (idx : Nat) : Option PriceLevel :=
  ((sortAsc (b.offers.map Prod.fst)).get? idx).bind
    (fun k => (alGet k b.offers).map (fun lv => PriceLevel.new k lv))

/-- `Book::bbo`: best bid and best ask. -/
def Book.bbo (b : Book) : Option PriceLevel × Option PriceLevel :=
  (b.bidLevel 0, b.askLevel 0)

/-- `Book::queue_pos`: sum (u32, wrapping) of the sizes of all orders strictly
ahead of the given order in its level's FIFO order. -/
def Book.queuePos (b : Book) (order_id : Nat) : Option Nat :=
  match alGet order_id b.orders_by_id with
  | none => none
  | some (side, price) =>
    match side with
    | .noSide => none
    | s =>
      match alGet price (b.getSide s) with
      | none => none
      | some level =>
        some ((level.takeWhile (fun o => o.order_id ≠ order_id)).foldl
          (fun acc o => (acc + o.size) % U32MOD) 0)

/-! ### Book mutators

Each mutator returns the post-call book together with the `Result` outcome,
mirroring the Rust `&mut self` methods: on an `Err` return the mutations
already performed persist in the returned book. -/

/-- `Book::clear`. -/
def Book.clear (_b : Book) : Book := Book.empty

/-- One pass body of `match_crossed_orders`, structurally recursive on a
fuel bound.  Each crossed iteration removes the whole best-bid level, the
whole best-ask level, and every order id they contain; since every iteration
strictly shrinks `bids`, fuel `b.bids.length + 1` is never exhausted (see
`matchCrossedAux_nonCrossed`). -/
def matchCrossedAux : Nat → Book → Book
  | 0, b => b
  | fuel + 1, b =>
    match maxKey? b.bids, minKey? b.offers with
    | some bid_px, some ask_px =>
      if ask_px ≤ bid_px then
        let bidOrders : Level := (alGet bid_px b.bids).getD []
        let askOrders : Level := (alGet ask_px b.offers).getD []
        let ids1 := bidOrders.foldl (fun acc o => alErase o.order_id acc) b.orders_by_id
        let ids2 := askOrders.foldl (fun acc o => alErase o.order_id acc) ids1
        matchCrossedAux fuel
          { orders_by_id := ids2
            offers := alErase ask_px b.offers
            bids := alErase bid_px b.bids }
      else b
    | _, _ => b

/-- `Book::match_crossed_orders`: while the best bid price is at least the
best ask price, remove both whole levels and drop every contained order id
from `orders_by_id`. -/
def Book.matchCrossedOrders (b : Book) : Book :=
  matchCrossedAux (b.bids.length + 1) b

/-- `Book::add`.  TOB adds replace the whole side (or clear it when the price
is `UNDEF_PRICE`); non-TOB adds index the order, append it to its level's
tail, and then run crossed-book repair.  Note the source inserts into
`orders_by_id` before the duplicate check fails, and before the side is
validated. -/
def Book.add (b : Book) (m : Msg) : Book × Except String Unit :=
  if m.is_tob then
    match m.side with
    | .noSide => (b, .error "Invalid side None")
    | s =>
      let newLevels : List (Int × Level) :=
        if m.price ≠ UNDEF_PRICE then [(m.price, [m])] else []
      (b.setSide s newLevels, .ok ())
  else
    if m.price = UNDEF_PRICE then
      (b, .error "Price cannot be UNDEF_PRICE for non-TOB add")
    else
      let dup := alContains m.order_id b.orders_by_id
      let b1 : Book :=
        { b with orders_by_id := alInsert m.order_id (m.side, m.price) b.orders_by_id }
      if dup then
        (b1, .error "Duplicate order ID")
      else
        match m.side with
        | .noSide => (b1, .error "Invalid side None")
        | s =>
          let b2 := b1.setSide s (alUpsert m.price [] (fun lv => lv ++ [m]) (b1.getSide s))
          (b2.matchCrossedOrders, .ok ())

/-- `Book::cancel`.  A missing level or missing order id is a pre-snapshot
cancel, reported as a skip (`some ()`); otherwise the resting size is reduced
and the order (and, when emptied, its level) is removed at zero. -/
def Book.cancel (b : Book) (m : Msg) : Book × Except String (Option Unit) :=
  match m.side with
  | .noSide => (b, .ok (some ()))
  | s =>
    match alGet m.price (b.getSide s) with
    | none => (b, .ok (some ()))
    | some level =>
      match level.findIdx? (fun o => o.order_id = m.order_id) with
      | none => (b, .ok (some ()))
      | some idx =>
        match level.get? idx with
        | none => (b, .error "Order index out of bounds")
        | some ex =>
          if ex.size < m.size then
            (b, .error "Cancel size exceeds existing order size")
          else
            let ex2 := { ex with size := ex.size - m.size }
            if ex2.size = 0 then
              let level2 := (level.set idx ex2).eraseIdx idx
              let sideMap :=
                if level2.isEmpty then alErase m.price (b.getSide s)
                else alInsert m.price level2 (b.getSide s)
              ({ (b.setSide s sideMap) with
                  orders_by_id := alErase m.order_id (b.setSide s sideMap).orders_by_id },
               .ok none)
            else
              (b.setSide s (alInsert m.price (level.set idx ex2) (b.getSide s)), .ok none)

/-- `remove_level`: fails when the side is invalid or the level is absent. -/
def Book.removeLevel (b : Book) (side : Side) (price : Int) : Except String Book :=
  match side with
  | .noSide => .error "Invalid side None"
  | s =>
    match alGet price (b.getSide s) with
    | none => .error "Level not found"
    | some _ => .ok (b.setSide s (alErase price (b.getSide s)))

/-- `get_or_insert_level` followed by `push_back`. -/
def Book.getOrInsertPush (b : Book) (side : Side) (price : Int) (m : Msg) :
    Except String Book :=
  match side with
  | .noSide => .error "Invalid side None"
  | s => .ok (b.setSide s (alUpsert price [] (fun lv => lv ++ [m]) (b.getSide s)))

/-- `Book::modify`.  An unknown order id is a pre-snapshot modify (skip).
Otherwise the id index is updated to the message's (side, price) first; the
keep-priority test compares the existing order's size after it has already
been set to the message's size; and the empty-level removal after a price
change uses the message's side, not the previous side (both faithful to the
source). -/
def Book.modify (b : Book) (m : Msg) : Book × Except String (Option Unit) :=
  match alGet m.order_id b.orders_by_id with
  | none => (b, .ok (some ()))
  | some (prevSide, prevPrice) =>
    let b1 : Book :=
      { b with orders_by_id := alInsert m.order_id (m.side, m.price) b.orders_by_id }
    match prevSide with
    | .noSide => (b1, .error "Invalid side None")
    | ps =>
      match alGet prevPrice (b1.getSide ps) with
      | none => (b1, .error "Level not found")
      | some level =>
        match level.findIdx? (fun o => o.order_id = m.order_id) with
        | none => (b1, .error "Order not found")
        | some idx =>
          match level.get? idx with
          | none => (b1, .error "Order index out of bounds")
          | some ex =>
            let ex2 := { ex with size := m.size }
            let level2 := level.set idx ex2
            if prevPrice = m.price ∧ ex2.size ≥ m.size then
              (b1.setSide ps (alInsert prevPrice level2 (b1.getSide ps)), .ok none)
            else
              if prevPrice ≠ m.price then
                let prevLevel2 := level2.eraseIdx idx
                let b2 := b1.setSide ps (alInsert prevPrice prevLevel2 (b1.getSide ps))
                if prevLevel2.isEmpty then
                  match b2.removeLevel m.side prevPrice with
                  | .error e => (b2, .error e)
                  | .ok b3 =>
                    match b3.getOrInsertPush m.side m.price m with
                    | .error e => (b3, .error e)
                    | .ok b4 => (b4, .ok none)
                else
                  match b2.getOrInsertPush m.side m.price m with
                  | .error e => (b2, .error e)
                  | .ok b3 => (b3, .ok none)
              else
                let level3 := level2.eraseIdx idx ++ [m]
                (b1.setSide ps (alInsert prevPrice level3 (b1.getSide ps)), .ok none)

/-- `Book::apply`: dispatch on the action; Trade/Fill/None are no-ops; skip
outcomes of Cancel/Modify are logged but not returned. -/
def Book.apply (b : Book) (m : Msg) : Book × Except String Unit :=
  match m.action with
  | none => (b, .error "MBO message has no valid action")
  | some .modify =>
    match b.modify m with
    | (b2, .ok _) => (b2, .ok ())
    | (b2, .error e) => (b2, .error e)
  | some .trade => (b, .ok ())
  | some .fill => (b, .ok ())
  | some .noAction => (b, .ok ())
  | some .cancel =>
    match b.cancel m with
    | (b2, .ok _) => (b2, .ok ())
    | (b2, .error e) => (b2, .error e)
  | some .add => b.add m
  | some .clear => (b.clear, .ok ())

/-! ### Market (src/mbo-backend/src/datatypes/market.rs) -/

/-- `Market`: instrument id to the ordered list of (publisher, book) pairs. -/
structure Market where
  books : List (Nat × List (Nat × Book))
deriving DecidableEq

/-- `Market::books_by_pub`. -/
def Market.booksByPub (mkt : Market) (instrument_id : Nat) : Option (List (Nat × Book)) :=
  alGet instrument_id mkt.books

/-- One step of the aggregated-bid merge in `Market::aggregated_bbo`:
replace on a strictly higher price, merge sizes and counts on a tie. -/
def aggStepBid (acc : Option PriceLevel) (bid : Option PriceLevel) : Option PriceLevel :=
  match bid with
  | none => acc
  | some bd =>
    match acc with
    | none => some bd
    | some ab =>
      if bd.price > ab.price then some bd
      else if bd.price = ab.price then
        some { ab with
          size := (ab.size + bd.size) % U32MOD
          count := (ab.count + bd.count) % U32MOD }
      else some ab

/-- One step of the aggregated-ask merge: replace on a strictly lower price,
merge on a tie. -/
def aggStepAsk (acc : Option PriceLevel) (ask : Option PriceLevel) : Option PriceLevel :=
  match ask with
  | none => acc
  | some ak =>
    match acc with
    | none => some ak
    | some aa =>
      if ak.price < aa.price then some ak
      else if ak.price = aa.price then
        some { aa with
          size := (aa.size + ak.size) % U32MOD
          count := (aa.count + ak.count) % U32MOD }
      else some aa

/-- `Market::aggregated_bbo`: fold the per-publisher book BBOs through the
merge steps. -/
def Market.aggregatedBbo (mkt : Market) (instrument_id : Nat) :
    Option PriceLevel × Option PriceLevel :=
  match mkt.booksByPub instrument_id with
  | none => (none, none)
  | some pubBooks =>
    pubBooks.foldl
      (fun acc pb => (aggStepBid acc.1 pb.2.bbo.1, aggStepAsk acc.2 pb.2.bbo.2))
      (none, none)

/-! ### Runs of the Book state machine -/

/-- Whether an `Except` outcome is a success. -/
def isOk {α : Type} : Except String α → Bool
  | .ok _ => true
  | .error _ => false

/-- The state after one `Book::apply` call (successful or not). -/
def stepBook (b : Book) (m : Msg) : Book := (b.apply m).1

/-- The state after a sequence of `Book::apply` calls. -/
def runBook (b : Book) (ms : List Msg) : Book := ms.foldl stepBook b

/-- Every apply in the sequence succeeds. -/
def okRunB : Book → List Msg → Bool
  | _, [] => true
  | b, m :: ms => isOk (b.apply m).2 && okRunB (stepBook b m) ms

/-- Message restriction under which the index-bijection invariant is
preserved: no TOB Add, and a Modify of a resting order carries the order's
current side. -/
def goodMsgB (b : Book) (m : Msg) : Bool :=
  match m.action with
  | some .add => !m.is_tob
  | some .modify =>
    match alGet m.order_id b.orders_by_id with
    | some e => e.1 == m.side
    | none => true
  | _ => true

/-- Every apply succeeds and every message satisfies `goodMsgB` in the state
it is applied to. -/
def goodRunB : Book → List Msg → Bool
  | _, [] => true
  | b, m :: ms => goodMsgB b m && isOk (b.apply m).2 && goodRunB (stepBook b m) ms

/-- The maximum of a list of prices. -/
def listMax? : List Int → Option Int
  | [] => none
  | x :: l =>
    match listMax? l with
    | none => some x
    | some m => some (max x m)

/-- The minimum of a list of prices. -/
def listMin? : List Int → Option Int
  | [] => none
  | x :: l =>
    match listMin? l with
    | none => some x
    | some m => some (min x m)

/-- The book is non-crossed: whenever both sides are non-empty, the maximum
bid price is strictly below the minimum ask price. -/
def NonCrossed (b : Book) : Prop :=
  ∀ bid_px ask_px, maxKey? b.bids = some bid_px → minKey? b.offers = some ask_px →
    bid_px < ask_px

/-- Part 1 of the index-bijection invariant: every id-index entry points to a
level that exists and contains an order with that id. -/
def InvA (b : Book) : Prop :=
  ∀ oid e, alGet oid b.orders_by_id = some e →
    ∃ lv, alGet e.2 (b.getSide e.1) = some lv ∧ oid ∈ levelIds lv

/-- Part 2: every order resting in a level is indexed at exactly that
(side, price). -/
def InvB (b : Book) : Prop :=
  ∀ s p lv, alGet p (b.getSide s) = some lv →
    ∀ o ∈ lv, alGet o.order_id b.orders_by_id = some (s, p)

/-- Part 3: no level contains two orders with the same id. -/
def InvC (b : Book) : Prop :=
  ∀ s p lv, alGet p (b.getSide s) = some lv → (levelIds lv).Nodup

/-- The full index-bijection invariant. -/
def Inv (b : Book) : Prop := InvA b ∧ InvB b ∧ InvC b

/-! ### Association-list lemmas -/

theorem alGet_insert_self {α β : Type} [DecidableEq α] (k : α) (v : β) (l : List (α × β)) :
    alGet k (alInsert k v l) = some v := by
  induction l with
  | nil => simp [alInsert, alGet]
  | cons p l ih =>
    simp only [alInsert]
    by_cases hp : p.1 = k
    · rw [if_pos hp]
      simp [alGet]
    · rw [if_neg hp]
      simp only [alGet, if_neg hp]
      exact ih

theorem alGet_insert_ne {α β : Type} [DecidableEq α] {k k2 : α} (v : β) (l : List (α × β))
    (h : k2 ≠ k) : alGet k2 (alInsert k v l) = alGet k2 l := by
  have hne : ¬(k = k2) := fun he => h he.symm
  induction l with
  | nil =>
    simp only [alInsert, alGet]
    rw [if_neg hne]
  | cons p l ih =>
    simp only [alInsert]
    by_cases hp : p.1 = k
    · rw [if_pos hp]
      simp only [alGet]
      rw [if_neg hne, if_neg (show ¬(p.1 = k2) by rw [hp]; exact hne)]
    · rw [if_neg hp]
      simp only [alGet]
      by_cases hq : p.1 = k2
      · rw [if_pos hq, if_pos hq]
      · rw [if_neg hq, if_neg hq]
        exact ih

theorem alGet_erase_self {α β : Type} [DecidableEq α] (k : α) (l : List (α × β)) :
    alGet k (alErase k l) = none := by
  induction l with
  | nil => simp [alErase, alGet]
  | cons p l ih =>
    simp only [alErase]
    by_cases hp : p.1 = k
    · rw [if_pos hp]
      exact ih
    · rw [if_neg hp]
      simp only [alGet, if_neg hp]
      exact ih

theorem alGet_erase_ne {α β : Type} [DecidableEq α] {k k2 : α} (l : List (α × β))
    (h : k2 ≠ k) : alGet k2 (alErase k l) = alGet k2 l := by
  induction l with
  | nil => simp [alErase]
  | cons p l ih =>
    simp only [alErase]
    by_cases hp : p.1 = k
    · rw [if_pos hp]
      rw [ih]
      simp only [alGet]
      rw [if_neg (show ¬(p.1 = k2) by rw [hp]; exact fun he => h he.symm)]
    · rw [if_neg hp]
      simp only [alGet]
      by_cases hq : p.1 = k2
      · rw [if_pos hq, if_pos hq]
      · rw [if_neg hq, if_neg hq]
        exact ih

theorem alGet_upsert_self {α β : Type} [DecidableEq α] (k : α) (d : β) (f : β → β)
    (l : List (α × β)) :
    alGet k (alUpsert k d f l) = some (f ((alGet k l).getD d)) := by
  induction l with
  | nil => simp [alUpsert, alGet]
  | cons p l ih =>
    simp only [alUpsert]
    by_cases hp : p.1 = k
    · rw [if_pos hp]
      simp only [alGet, if_pos rfl, if_pos hp]
      rfl
    · rw [if_neg hp]
      simp only [alGet, if_neg hp]
      exact ih

theorem alGet_upsert_ne {α β : Type} [DecidableEq α] {k k2 : α} (d : β) (f : β → β)
    (l : List (α × β)) (h : k2 ≠ k) : alGet k2 (alUpsert k d f l) = alGet k2 l := by
  have hne : ¬(k = k2) := fun he => h he.symm
  induction l with
  | nil =>
    simp only [alUpsert, alGet]
    rw [if_neg hne]
  | cons p l ih =>
    simp only [alUpsert]
    by_cases hp : p.1 = k
    · rw [if_pos hp]
      simp only [alGet]
      rw [if_neg hne, if_neg (show ¬(p.1 = k2) by rw [hp]; exact hne)]
    · rw [if_neg hp]
      simp only [alGet]
      by_cases hq : p.1 = k2
      · rw [if_pos hq, if_pos hq]
      · rw [if_neg hq, if_neg hq]
        exact ih

/-- Removing the ids of a batch of orders from the id index: a key survives
with its old value unless it is one of the removed ids. -/
theorem alGet_foldl_erase {β : Type} (orders : List Msg) (ids : List (Nat × β)) (k : Nat) :
    alGet k (orders.foldl (fun acc o => alErase o.order_id acc) ids) =
      if k ∈ orders.map Msg.order_id then none else alGet k ids := by
  induction orders generalizing ids with
  | nil => simp
  | cons o os ih =>
    simp only [List.foldl_cons, List.map_cons, List.mem_cons]
    rw [ih]
    by_cases hk : k = o.order_id
    · rw [if_pos (Or.inl hk)]
      by_cases hm : k ∈ os.map Msg.order_id
      · rw [if_pos hm]
      · rw [if_neg hm, hk, alGet_erase_self]
    · by_cases hm : k ∈ os.map Msg.order_id
      · rw [if_pos hm, if_pos (Or.inr hm)]
      · rw [if_neg hm, if_neg (by tauto), alGet_erase_ne _ hk]

/-! ### Small list lemmas -/

theorem lstMemOfGet {α : Type} {l : List α} {i : Nat} {a : α}
    (h : l.get? i = some a) : a ∈ l := by
  induction l generalizing i with
  | nil => simp at h
  | cons x xs ih =>
    cases i with
    | zero =>
      simp only [List.get?, Option.some.injEq] at h
      exact h ▸ List.mem_cons_self x xs
    | succ j =>
      simp only [List.get?] at h
      exact List.mem_cons_of_mem x (ih h)

theorem lstFindIdxAux {α : Type} {pr : α → Bool} (l : List α) (s i : Nat)
    (h : List.findIdx? pr l s = some i) :
    s ≤ i ∧ ∃ a, l.get? (i - s) = some a ∧ pr a = true := by
  induction l generalizing s with
  | nil => simp [List.findIdx?] at h
  | cons x xs ih =>
    rw [List.findIdx?] at h
    by_cases hx : pr x
    · rw [if_pos hx] at h
      simp only [Option.some.injEq] at h
      refine ⟨h ▸ Nat.le_refl s, x, ?_, hx⟩
      rw [← h, Nat.sub_self]
      rfl
    · rw [if_neg hx] at h
      obtain ⟨hs, a, ha, hpa⟩ := ih (s + 1) h
      refine ⟨by omega, a, ?_, hpa⟩
      have hstep : i - s = (i - (s + 1)) + 1 := by omega
      rw [hstep]
      exact ha

theorem lstFindIdxSome {α : Type} {pr : α → Bool} {l : List α} {i : Nat}
    (h : l.findIdx? pr = some i) : ∃ a, l.get? i = some a ∧ pr a = true := by
  have := lstFindIdxAux l 0 i h
  simpa using this.2

theorem lstGetMap {α β : Type} (f : α → β) (l : List α) (i : Nat) :
    (l.map f).get? i = (l.get? i).map f := by
  induction l generalizing i with
  | nil => simp
  | cons x xs ih =>
    cases i with
    | zero => simp
    | succ j => simpa using ih j

theorem lstMapSet {α β : Type} (f : α → β) (l : List α) (i : Nat) (a : α) :
    (l.set i a).map f = (l.map f).set i (f a) := by
  induction l generalizing i with
  | nil => simp
  | cons x xs ih =>
    cases i with
    | zero => simp
    | succ j => simpa using ih j

theorem lstMapEraseIdx {α β : Type} (f : α → β) (l : List α) (i : Nat) :
    (l.eraseIdx i).map f = (l.map f).eraseIdx i := by
  induction l generalizing i with
  | nil => simp
  | cons x xs ih =>
    cases i with
    | zero => simp
    | succ j => simpa using ih j

theorem lstSetGetSelf {α : Type} {l : List α} {i : Nat} {a : α}
    (h : l.get? i = some a) : l.set i a = l := by
  induction l generalizing i with
  | nil => simp at h
  | cons x xs ih =>
    cases i with
    | zero =>
      simp only [List.get?, Option.some.injEq] at h
      simp [← h]
    | succ j =>
      simp only [List.get?] at h
      simp [ih h]

theorem lstMemOfMemEraseIdx {α : Type} {l : List α} {i : Nat} {a : α}
    (h : a ∈ l.eraseIdx i) : a ∈ l := by
  induction l generalizing i with
  | nil => simp at h
  | cons x xs ih =>
    cases i with
    | zero =>
      simp only [List.eraseIdx] at h
      exact List.mem_cons_of_mem x h
    | succ j =>
      simp only [List.eraseIdx] at h
      rcases List.mem_cons.mp h with h | h
      · exact h ▸ List.mem_cons_self x xs
      · exact List.mem_cons_of_mem x (ih h)

theorem lstMemEraseIdxOfNe {α : Type} {l : List α} {i : Nat} {a c : α}
    (ha : a ∈ l) (hc : l.get? i = some c) (hne : a ≠ c) : a ∈ l.eraseIdx i := by
  induction l generalizing i with
  | nil => simp at ha
  | cons x xs ih =>
    cases i with
    | zero =>
      simp only [List.get?, Option.some.injEq] at hc
      rcases List.mem_cons.mp ha with h | h
      · exact absurd (h.trans hc) hne
      · simpa [List.eraseIdx] using h
    | succ j =>
      simp only [List.get?] at hc
      simp only [List.eraseIdx]
      rcases List.mem_cons.mp ha with h | h
      · exact h ▸ List.mem_cons_self x _
      · exact List.mem_cons_of_mem x (ih h hc)

theorem lstNotMemEraseIdxSelf {α : Type} {l : List α} {i : Nat} {a : α}
    (hnd : l.Nodup) (h : l.get? i = some a) : a ∉ l.eraseIdx i := by
  induction l generalizing i with
  | nil => simp at h
  | cons x xs ih =>
    cases i with
    | zero =>
      simp only [List.get?, Option.some.injEq] at h
      simp only [List.eraseIdx]
      have := (List.nodup_cons.mp hnd).1
      exact h ▸ this
    | succ j =>
      simp only [List.get?] at h
      simp only [List.eraseIdx]
      intro hmem
      rcases List.mem_cons.mp hmem with hm | hm
      · have hx : a ∈ xs := lstMemOfGet h
        exact (List.nodup_cons.mp hnd).1 (hm ▸ hx)
      · exact ih (List.nodup_cons.mp hnd).2 h hm

theorem lstNodupEraseIdx {α : Type} {l : List α} (i : Nat) (hnd : l.Nodup) :
    (l.eraseIdx i).Nodup := by
  induction l generalizing i with
  | nil => simp
  | cons x xs ih =>
    cases i with
    | zero => exact (List.nodup_cons.mp hnd).2
    | succ j =>
      simp only [List.eraseIdx]
      rw [List.nodup_cons]
      refine ⟨fun hm => (List.nodup_cons.mp hnd).1 (lstMemOfMemEraseIdx hm), ?_⟩
      exact ih j (List.nodup_cons.mp hnd).2

theorem lstEraseIdxNilOfGet {α : Type} {l : List α} {i : Nat} {a : α}
    (hc : l.get? i = some a) (h : l.eraseIdx i = []) : l = [a] := by
  induction l generalizing i with
  | nil => simp at hc
  | cons x xs ih =>
    cases i with
    | zero =>
      simp only [List.get?, Option.some.injEq] at hc
      simp only [List.eraseIdx] at h
      rw [h, hc]
    | succ j =>
      simp only [List.eraseIdx] at h
      simp at h

/-! ### maxKey? and minKey? lemmas -/

theorem maxKey?_eq_none {β : Type} {l : List (Int × β)} (h : maxKey? l = none) :
    l = [] := by
  cases l with
  | nil => rfl
  | cons p t =>
    simp only [maxKey?] at h
    cases ht : maxKey? t <;> rw [ht] at h <;> simp at h

theorem minKey?_eq_none {β : Type} {l : List (Int × β)} (h : minKey? l = none) :
    l = [] := by
  cases l with
  | nil => rfl
  | cons p t =>
    simp only [minKey?] at h
    cases ht : minKey? t <;> rw [ht] at h <;> simp at h

theorem minKey?_mem {β : Type} {l : List (Int × β)} {k : Int}
    (h : minKey? l = some k) : k ∈ l.map Prod.fst := by
  induction l generalizing k with
  | nil => simp [minKey?] at h
  | cons p l ih =>
    simp only [minKey?] at h
    simp only [List.map_cons, List.mem_cons]
    cases hl : minKey? l with
    | none =>
      rw [hl] at h
      simp only [Option.some.injEq] at h
      left
      omega
    | some m =>
      rw [hl] at h
      simp only [Option.some.injEq] at h
      rcases min_choice p.1 m with hc | hc
      · left
        omega
      · right
        have hkm : k = m := by omega
        exact hkm ▸ ih hl

theorem maxKey?_isSome {β : Type} {l : List (Int × β)} (h : l ≠ []) :
    ∃ k, maxKey? l = some k := by
  cases hk : maxKey? l with
  | none => exact absurd (maxKey?_eq_none hk) h
  | some k => exact ⟨k, rfl⟩

theorem minKey?_isSome {β : Type} {l : List (Int × β)} (h : l ≠ []) :
    ∃ k, minKey? l = some k := by
  cases hk : minKey? l with
  | none => exact absurd (minKey?_eq_none hk) h
  | some k => exact ⟨k, rfl⟩

/-! ### getSide / setSide lemmas -/

theorem getSide_setSide_self (b : Book) {s : Side} (hs : s ≠ .noSide)
    (m : List (Int × Level)) : (b.setSide s m).getSide s = m := by
  cases s with
  | bid => rfl
  | ask => rfl
  | noSide => exact absurd rfl hs

theorem orders_setSide (b : Book) (s : Side) (m : List (Int × Level)) :
    (b.setSide s m).orders_by_id = b.orders_by_id := by
  cases s <;> rfl

/-! ### Crossed-book repair -/

/-- With enough fuel the repair loop ends in a non-crossed book. -/
theorem matchCrossedAux_nonCrossed : ∀ (fuel : Nat) (b : Book),
    b.bids.length < fuel → NonCrossed (matchCrossedAux fuel b) := by
  intro fuel
  induction fuel with
  | zero =>
    intro b hlen
    exact absurd hlen (by omega)
  | succ fuel ih =>
    intro b hlen
    rw [matchCrossedAux]
    split
    next bid_px ask_px hb ha =>
      split
      next hle =>
        have hlt : (alErase bid_px b.bids).length < b.bids.length :=
          alErase_length_lt (maxKey?_mem hb)
        exact ih _ (by simpa using Nat.lt_of_lt_of_le hlt (Nat.lt_succ_iff.mp hlen))
      next hnle =>
        intro bp ap h1 h2
        rw [hb] at h1
        rw [ha] at h2
        simp only [Option.some.injEq] at h1 h2
        omega
    next hcatch =>
      intro bp ap h1 h2
      exact (hcatch bp ap h1 h2).elim

/-- `match_crossed_orders` always terminates in a non-crossed book. -/
theorem matchCrossed_nonCrossed (b : Book) : NonCrossed b.matchCrossedOrders :=
  matchCrossedAux_nonCrossed (b.bids.length + 1) b (Nat.lt_succ_self _)

/-- `match_crossed_orders` does nothing on a book that is already
non-crossed. -/
theorem matchCrossed_of_nonCrossed {b : Book} (h : NonCrossed b) :
    b.matchCrossedOrders = b := by
  rw [Book.matchCrossedOrders, matchCrossedAux]
  split
  next bid_px ask_px hb ha =>
    split
    next hle => exact absurd (h bid_px ask_px hb ha) (by omega)
    next hnle => rfl
  next hcatch => rfl

/-! ### Preservation of the index-bijection invariant -/

theorem inv_empty : Inv Book.empty := by
  refine ⟨?_, ?_, ?_⟩
  · intro oid e hget
    simp [Book.empty, alGet] at hget
  · intro s p lv hget
    cases s <;> simp [Book.empty, Book.getSide, alGet] at hget
  · intro s p lv hget
    cases s <;> simp [Book.empty, Book.getSide, alGet] at hget

/-- From part 2 of the invariant: an id occurring in a level is indexed at the
level's location. -/
theorem invB_levelMem {b : Book} (hB : InvB b) {s : Side} {p : Int} {lv : Level}
    (hlv : alGet p (b.getSide s) = some lv) {oid : Nat} (hmem : oid ∈ levelIds lv) :
    alGet oid b.orders_by_id = some (s, p) := by
  simp only [levelIds, List.mem_map] at hmem
  obtain ⟨o, ho, hid⟩ := hmem
  exact hid ▸ hB s p lv hlv o ho

/-- Removing a whole bid level and a whole ask level, together with all the
order ids they contain, preserves the invariant. -/
theorem inv_removeLevels {b : Book} (hInv : Inv b) (bp ap : Int) :
    Inv { orders_by_id :=
            ((alGet ap b.offers).getD []).foldl (fun acc o => alErase o.order_id acc)
              (((alGet bp b.bids).getD []).foldl (fun acc o => alErase o.order_id acc)
                b.orders_by_id)
          offers := alErase ap b.offers
          bids := alErase bp b.bids } := by
  obtain ⟨hA, hB, hC⟩ := hInv
  have hBidMem : ∀ oid, oid ∈ ((alGet bp b.bids).getD []).map Msg.order_id →
      alGet oid b.orders_by_id = some (Side.bid, bp) := by
    intro oid hmem
    cases hbl : alGet bp b.bids with
    | none => rw [hbl] at hmem; simp at hmem
    | some lvB =>
      rw [hbl] at hmem
      simp only [Option.getD_some] at hmem
      exact invB_levelMem hB (s := Side.bid) hbl hmem
  have hAskMem : ∀ oid, oid ∈ ((alGet ap b.offers).getD []).map Msg.order_id →
      alGet oid b.orders_by_id = some (Side.ask, ap) := by
    intro oid hmem
    cases hal : alGet ap b.offers with
    | none => rw [hal] at hmem; simp at hmem
    | some lvA =>
      rw [hal] at hmem
      simp only [Option.getD_some] at hmem
      exact invB_levelMem hB (s := Side.ask) hal hmem
  refine ⟨?_, ?_, ?_⟩
  · -- InvA
    intro oid e hget
    rw [alGet_foldl_erase] at hget
    by_cases hask : oid ∈ ((alGet ap b.offers).getD []).map Msg.order_id
    · rw [if_pos hask] at hget
      exact absurd hget (by simp)
    · rw [if_neg hask] at hget
      rw [alGet_foldl_erase] at hget
      by_cases hbid : oid ∈ ((alGet bp b.bids).getD []).map Msg.order_id
      · rw [if_pos hbid] at hget
        exact absurd hget (by simp)
      · rw [if_neg hbid] at hget
        obtain ⟨lv, hlv, hmem⟩ := hA oid e hget
        cases hs : e.1 with
        | bid =>
          rw [hs] at hlv
          simp only [Book.getSide] at hlv
          by_cases hp : e.2 = bp
          · exfalso
            apply hbid
            rw [hp] at hlv
            rw [hlv]
            simpa [levelIds] using hmem
          · refine ⟨lv, ?_, hmem⟩
            simp only [Book.getSide]
            rw [alGet_erase_ne _ hp]
            exact hlv
        | ask =>
          rw [hs] at hlv
          simp only [Book.getSide] at hlv
          by_cases hp : e.2 = ap
          · exfalso
            apply hask
            rw [hp] at hlv
            rw [hlv]
            simpa [levelIds] using hmem
          · refine ⟨lv, ?_, hmem⟩
            simp only [Book.getSide]
            rw [alGet_erase_ne _ hp]
            exact hlv
        | noSide =>
          rw [hs] at hlv
          simp [Book.getSide, alGet] at hlv
  · -- InvB
    intro s p lv hget o ho
    have hloc : alGet p (b.getSide s) = some lv ∧ ((s = Side.bid → p ≠ bp) ∧ (s = Side.ask → p ≠ ap)) := by
      cases s with
      | bid =>
        simp only [Book.getSide] at hget ⊢
        by_cases hp : p = bp
        · rw [hp, alGet_erase_self] at hget
          simp at hget
        · rw [alGet_erase_ne _ hp] at hget
          exact ⟨hget, fun _ => hp, fun hcon => absurd hcon (by decide)⟩
      | ask =>
        simp only [Book.getSide] at hget ⊢
        by_cases hp : p = ap
        · rw [hp, alGet_erase_self] at hget
          simp at hget
        · rw [alGet_erase_ne _ hp] at hget
          exact ⟨hget, fun hcon => absurd hcon (by decide), fun _ => hp⟩
      | noSide =>
        simp [Book.getSide, alGet] at hget
    obtain ⟨hlvOld, hpb, hpa⟩ := hloc
    have hoid : alGet o.order_id b.orders_by_id = some (s, p) := hB s p lv hlvOld o ho
    have hnotbid : o.order_id ∉ ((alGet bp b.bids).getD []).map Msg.order_id := by
      intro hmem
      have := hBidMem o.order_id hmem
      rw [hoid] at this
      simp only [Option.some.injEq, Prod.mk.injEq] at this
      cases s with
      | bid => exact (hpb rfl) this.2
      | ask => exact absurd this.1 (by decide)
      | noSide => exact absurd this.1 (by decide)
    have hnotask : o.order_id ∉ ((alGet ap b.offers).getD []).map Msg.order_id := by
      intro hmem
      have := hAskMem o.order_id hmem
      rw [hoid] at this
      simp only [Option.some.injEq, Prod.mk.injEq] at this
      cases s with
      | bid => exact absurd this.1 (by decide)
      | ask => exact (hpa rfl) this.2
      | noSide => exact absurd this.1 (by decide)
    rw [alGet_foldl_erase, if_neg hnotask, alGet_foldl_erase, if_neg hnotbid]
    exact hoid
  · -- InvC
    intro s p lv hget
    cases s with
    | bid =>
      simp only [Book.getSide] at hget
      by_cases hp : p = bp
      · rw [hp, alGet_erase_self] at hget
        simp at hget
      · rw [alGet_erase_ne _ hp] at hget
        exact hC Side.bid p lv hget
    | ask =>
      simp only [Book.getSide] at hget
      by_cases hp : p = ap
      · rw [hp, alGet_erase_self] at hget
        simp at hget
      · rw [alGet_erase_ne _ hp] at hget
        exact hC Side.ask p lv hget
    | noSide =>
      simp [Book.getSide, alGet] at hget

/-- Crossed-book repair preserves the invariant, with any fuel. -/
theorem inv_matchCrossedAux : ∀ (fuel : Nat) {b : Book}, Inv b →
    Inv (matchCrossedAux fuel b) := by
  intro fuel
  induction fuel with
  | zero =>
    intro b hInv
    exact hInv
  | succ fuel ih =>
    intro b hInv
    rw [matchCrossedAux]
    split
    next bid_px ask_px hb ha =>
      split
      next hle => exact ih (inv_removeLevels hInv bid_px ask_px)
      next hnle => exact hInv
    next hcatch => exact hInv

/-- Crossed-book repair preserves the invariant. -/
theorem inv_matchCrossed {b : Book} (hInv : Inv b) : Inv b.matchCrossedOrders :=
  inv_matchCrossedAux (b.bids.length + 1) hInv

theorem lstNodupSnoc {α : Type} {l : List α} {a : α} (hnd : l.Nodup) (ha : a ∉ l) :
    (l ++ [a]).Nodup := by
  induction l with
  | nil => simp
  | cons x xs ih =>
    rw [List.cons_append, List.nodup_cons]
    refine ⟨?_, ih (List.nodup_cons.mp hnd).2 (fun hm => ha (List.mem_cons_of_mem x hm))⟩
    intro hmem
    rcases List.mem_append.mp hmem with hm | hm
    · exact (List.nodup_cons.mp hnd).1 hm
    · simp only [List.mem_singleton] at hm
      exact ha (hm ▸ List.mem_cons_self x xs)

/-- An id unknown to the id index rests in no level. -/
theorem inv_notInLevel {b : Book} (hB : InvB b) {oid : Nat}
    (hnew : alGet oid b.orders_by_id = none) {t : Side} {p : Int} {lv : Level}
    (hlv : alGet p (b.getSide t) = some lv) : oid ∉ levelIds lv := by
  intro hmem
  have := invB_levelMem hB hlv hmem
  rw [hnew] at this
  cases this

/-- Indexing a fresh order and appending it to the tail of its level
preserves the invariant. -/
theorem inv_insertPush {b : Book} {m : Msg} (hInv : Inv b)
    (hnew : alGet m.order_id b.orders_by_id = none) {s : Side} (hside : m.side = s)
    (hs : s ≠ Side.noSide) :
    Inv (({ b with orders_by_id := alInsert m.order_id (m.side, m.price) b.orders_by_id } : Book).setSide s
      (alUpsert m.price [] (fun lv => lv ++ [m]) (b.getSide s))) := by
  obtain ⟨hA, hB, hC⟩ := hInv
  have hgetB2 : ∀ t : Side,
      (({ b with orders_by_id := alInsert m.order_id (m.side, m.price) b.orders_by_id } : Book).setSide s
        (alUpsert m.price [] (fun lv => lv ++ [m]) (b.getSide s))).getSide t =
      if t = s ∧ t ≠ Side.noSide then alUpsert m.price [] (fun lv => lv ++ [m]) (b.getSide s)
      else b.getSide t := by
    intro t
    cases s <;> cases t <;> simp [Book.setSide, Book.getSide] <;> exact absurd rfl hs
  have hids2 : (({ b with orders_by_id := alInsert m.order_id (m.side, m.price) b.orders_by_id } : Book).setSide s
        (alUpsert m.price [] (fun lv => lv ++ [m]) (b.getSide s))).orders_by_id =
      alInsert m.order_id (m.side, m.price) b.orders_by_id := by
    cases s <;> rfl
  refine ⟨?_, ?_, ?_⟩
  · -- InvA
    intro oid2 e hget2
    rw [hids2] at hget2
    by_cases ho2 : oid2 = m.order_id
    · subst ho2
      rw [alGet_insert_self] at hget2
      simp only [Option.some.injEq] at hget2
      rw [← hget2]
      rw [hgetB2]
      rw [if_pos (show (m.side, m.price).1 = s ∧ (m.side, m.price).1 ≠ Side.noSide from
        ⟨hside, hside ▸ hs⟩)]
      refine ⟨((alGet m.price (b.getSide s)).getD []) ++ [m], ?_, ?_⟩
      · exact alGet_upsert_self m.price [] (fun lv => lv ++ [m]) (b.getSide s)
      · simp [levelIds]
    · rw [alGet_insert_ne _ _ ho2] at hget2
      obtain ⟨lv, hlv, hmem⟩ := hA oid2 e hget2
      rw [hgetB2]
      by_cases he : e.1 = s ∧ e.1 ≠ Side.noSide
      · rw [if_pos he]
        by_cases hp : e.2 = m.price
        · rw [he.1, hp] at hlv
          refine ⟨lv ++ [m], ?_, ?_⟩
          · rw [hp, alGet_upsert_self, hlv]
            rfl
          · simp only [levelIds, List.map_append, List.mem_append]
            exact Or.inl hmem
        · rw [alGet_upsert_ne _ _ _ hp]
          rw [he.1] at hlv
          exact ⟨lv, hlv, hmem⟩
      · rw [if_neg he]
        exact ⟨lv, hlv, hmem⟩
  · -- InvB
    intro s2 p2 lv2 hget2 o ho
    rw [hids2]
    rw [hgetB2] at hget2
    by_cases hs2 : s2 = s ∧ s2 ≠ Side.noSide
    · rw [if_pos hs2] at hget2
      by_cases hp2 : p2 = m.price
      · subst hp2
        rw [alGet_upsert_self] at hget2
        simp only [Option.some.injEq] at hget2
        rw [← hget2] at ho
        rcases List.mem_append.mp ho with hm | hm
        · cases hold : alGet m.price (b.getSide s) with
          | none =>
            rw [hold] at hm
            simp at hm
          | some lvO =>
            rw [hold] at hm
            simp only [Option.getD_some] at hm
            have hval := hB s m.price lvO hold o hm
            have hne : o.order_id ≠ m.order_id := by
              intro hcon
              rw [hcon, hnew] at hval
              cases hval
            rw [alGet_insert_ne _ _ hne, hs2.1]
            exact hval
        · simp only [List.mem_singleton] at hm
          subst hm
          rw [alGet_insert_self, hside, hs2.1]
      · rw [alGet_upsert_ne _ _ _ hp2] at hget2
        have hval := hB s p2 lv2 hget2 o ho
        have hne : o.order_id ≠ m.order_id := by
          intro hcon
          rw [hcon, hnew] at hval
          cases hval
        rw [alGet_insert_ne _ _ hne, hs2.1]
        exact hval
    · rw [if_neg hs2] at hget2
      have hval := hB s2 p2 lv2 hget2 o ho
      have hne : o.order_id ≠ m.order_id := by
        intro hcon
        rw [hcon, hnew] at hval
        cases hval
      rw [alGet_insert_ne _ _ hne]
      exact hval
  · -- InvC
    intro s2 p2 lv2 hget2
    rw [hgetB2] at hget2
    by_cases hs2 : s2 = s ∧ s2 ≠ Side.noSide
    · rw [if_pos hs2] at hget2
      by_cases hp2 : p2 = m.price
      · subst hp2
        rw [alGet_upsert_self] at hget2
        simp only [Option.some.injEq] at hget2
        rw [← hget2]
        simp only [levelIds, List.map_append]
        cases hold : alGet m.price (b.getSide s) with
        | none => simp
        | some lvO =>
          simp only [Option.getD_some, List.map_cons, List.map_nil]
          exact lstNodupSnoc (hC s m.price lvO hold) (inv_notInLevel hB hnew hold)
      · rw [alGet_upsert_ne _ _ _ hp2] at hget2
        exact hC s p2 lv2 hget2
    · rw [if_neg hs2] at hget2
      exact hC s2 p2 lv2 hget2

/-- A false `alContains` is an absent key. -/
theorem alContains_false {α β : Type} [DecidableEq α] {k : α} {l : List (α × β)}
    (h : ¬ alContains k l = true) : alGet k l = none := by
  rw [alContains] at h
  cases hg : alGet k l with
  | none => rfl
  | some v =>
    rw [hg] at h
    simp at h

/-- A successful non-TOB `Book::add` preserves the invariant. -/
theorem inv_add {b : Book} {m : Msg} (hInv : Inv b) (htob : m.is_tob = false)
    (hOk : isOk (b.add m).2 = true) : Inv (b.add m).1 := by
  by_cases hpu : m.price = UNDEF_PRICE
  · exfalso
    simp [Book.add, htob, hpu, isOk] at hOk
  by_cases hdup : alContains m.order_id b.orders_by_id = true
  · exfalso
    simp [Book.add, htob, hpu, hdup, isOk] at hOk
  have hnew : alGet m.order_id b.orders_by_id = none := alContains_false hdup
  cases hside : m.side with
  | noSide =>
    exfalso
    simp [Book.add, htob, hpu, hdup, hside, isOk] at hOk
  | bid =>
    have hres : (b.add m).1 =
        (({ b with orders_by_id := alInsert m.order_id (m.side, m.price) b.orders_by_id } : Book).setSide
          Side.bid (alUpsert m.price [] (fun lv => lv ++ [m]) (b.getSide Side.bid))).matchCrossedOrders := by
      simp [Book.add, htob, hpu, hdup, hside, Book.getSide]
    rw [hres]
    exact inv_matchCrossed (inv_insertPush hInv hnew hside (by decide))
  | ask =>
    have hres : (b.add m).1 =
        (({ b with orders_by_id := alInsert m.order_id (m.side, m.price) b.orders_by_id } : Book).setSide
          Side.ask (alUpsert m.price [] (fun lv => lv ++ [m]) (b.getSide Side.ask))).matchCrossedOrders := by
      simp [Book.add, htob, hpu, hdup, hside, Book.getSide]
    rw [hres]
    exact inv_matchCrossed (inv_insertPush hInv hnew hside (by decide))

/-- Level maps after a `setSide`, for any queried side. -/
theorem getSide_update (b : Book) {s : Side} (hs : s ≠ Side.noSide)
    (mp : List (Int × Level)) (t : Side) :
    (b.setSide s mp).getSide t = if t = s then mp else b.getSide t := by
  cases s <;> cases t <;> simp [Book.setSide, Book.getSide] <;> exact absurd rfl hs

/-- Re-inserting the value a key already has is a no-op. -/
theorem alInsert_self_eq {α β : Type} [DecidableEq α] {k : α} {v : β} {l : List (α × β)}
    (h : alGet k l = some v) : alInsert k v l = l := by
  induction l with
  | nil => simp [alGet] at h
  | cons p l ih =>
    simp only [alGet] at h
    simp only [alInsert]
    by_cases hp : p.1 = k
    · rw [if_pos hp] at h ⊢
      simp only [Option.some.injEq] at h
      rw [← hp, ← h]
    · rw [if_neg hp] at h ⊢
      rw [ih h]

/-- Replacing an order in place by one with the same id keeps the level's id
list. -/
theorem levelIds_set_preserve {lv : Level} {idx : Nat} {ex ex2 : Msg}
    (hget : lv.get? idx = some ex) (hid : ex2.order_id = ex.order_id) :
    levelIds (lv.set idx ex2) = levelIds lv := by
  rw [levelIds, levelIds, lstMapSet, hid]
  apply lstSetGetSelf
  rw [lstGetMap, hget]
  rfl

theorem lstMemSet {α : Type} {l : List α} {i : Nat} {a x : α}
    (h : x ∈ l.set i a) : x ∈ l ∨ x = a := by
  induction l generalizing i with
  | nil => simp at h
  | cons y ys ih =>
    cases i with
    | zero =>
      simp only [List.set] at h
      rcases List.mem_cons.mp h with hm | hm
      · exact Or.inr hm
      · exact Or.inl (List.mem_cons_of_mem y hm)
    | succ j =>
      simp only [List.set] at h
      rcases List.mem_cons.mp h with hm | hm
      · exact Or.inl (hm ▸ List.mem_cons_self y ys)
      · rcases ih hm with hm2 | hm2
        · exact Or.inl (List.mem_cons_of_mem y hm2)
        · exact Or.inr hm2

/-- Replacing one level by another with the same id list preserves the
invariant. -/
theorem inv_setLevelSameIds {b : Book} {s : Side} (hs : s ≠ Side.noSide) {price : Int}
    {level level2 : Level} (hInv : Inv b)
    (hlev : alGet price (b.getSide s) = some level)
    (hids : levelIds level2 = levelIds level) :
    Inv (b.setSide s (alInsert price level2 (b.getSide s))) := by
  obtain ⟨hA, hB, hC⟩ := hInv
  refine ⟨?_, ?_, ?_⟩
  · intro oid e hget
    rw [orders_setSide] at hget
    obtain ⟨lv, hlv, hmem⟩ := hA oid e hget
    rw [getSide_update b hs]
    by_cases he : e.1 = s
    · rw [if_pos he]
      by_cases hp : e.2 = price
      · refine ⟨level2, ?_, ?_⟩
        · rw [hp, alGet_insert_self]
        · rw [he, hp] at hlv
          rw [hlv] at hlev
          simp only [Option.some.injEq] at hlev
          rw [hids, ← hlev]
          exact hmem
      · rw [alGet_insert_ne _ _ hp]
        rw [he] at hlv
        exact ⟨lv, hlv, hmem⟩
    · rw [if_neg he]
      exact ⟨lv, hlv, hmem⟩
  · intro s2 p2 lv2 hget2 o ho
    rw [orders_setSide]
    rw [getSide_update b hs] at hget2
    by_cases hs2 : s2 = s
    · rw [if_pos hs2] at hget2
      by_cases hp2 : p2 = price
      · rw [hp2, alGet_insert_self] at hget2
        simp only [Option.some.injEq] at hget2
        have hoid : o.order_id ∈ levelIds level := by
          rw [← hids, hget2]
          simp only [levelIds, List.mem_map]
          exact ⟨o, ho, rfl⟩
        have := invB_levelMem hB hlev hoid
        rw [hs2, hp2]
        exact this
      · rw [alGet_insert_ne _ _ hp2] at hget2
        rw [hs2]
        exact hB s p2 lv2 hget2 o ho
    · rw [if_neg hs2] at hget2
      exact hB s2 p2 lv2 hget2 o ho
  · intro s2 p2 lv2 hget2
    rw [getSide_update b hs] at hget2
    by_cases hs2 : s2 = s
    · rw [if_pos hs2] at hget2
      by_cases hp2 : p2 = price
      · rw [hp2, alGet_insert_self] at hget2
        simp only [Option.some.injEq] at hget2
        rw [← hget2, hids]
        exact hC s price level hlev
      · rw [alGet_insert_ne _ _ hp2] at hget2
        exact hC s p2 lv2 hget2
    · rw [if_neg hs2] at hget2
      exact hC s2 p2 lv2 hget2

theorem getSide_withIds (X : Book) (y : List (Nat × (Side × Int))) (t : Side) :
    ({ X with orders_by_id := y } : Book).getSide t = X.getSide t := by
  cases t <;> rfl

/-- Removing a resting order entirely (its level erased when emptied) and
dropping its id from the index preserves the invariant. -/
theorem inv_cancelFull {b : Book} {s : Side} (hs : s ≠ Side.noSide) {price : Int}
    {level : Level} {idx : Nat} {ex : Msg} {oid : Nat} (hInv : Inv b)
    (hlev : alGet price (b.getSide s) = some level)
    (hgetIdx : level.get? idx = some ex)
    (hoid : ex.order_id = oid) (n : Nat)
    (mp : List (Int × Level))
    (hmp : mp = if ((level.set idx { ex with size := n }).eraseIdx idx).isEmpty
      then alErase price (b.getSide s)
      else alInsert price ((level.set idx { ex with size := n }).eraseIdx idx) (b.getSide s)) :
    Inv { (b.setSide s mp) with orders_by_id := alErase oid b.orders_by_id } := by
  obtain ⟨hA, hB, hC⟩ := hInv
  set ex2 : Msg := { ex with size := n } with hex2def
  have hid2 : ex2.order_id = ex.order_id := rfl
  set level2 : Level := (level.set idx ex2).eraseIdx idx with hl2def
  have hnd : (levelIds level).Nodup := hC s price level hlev
  have hgetIds : (levelIds level).get? idx = some oid := by
    rw [levelIds, lstGetMap, hgetIdx]
    exact congrArg some hoid
  have hsp : levelIds (level.set idx ex2) = levelIds level :=
    levelIds_set_preserve hgetIdx hid2
  have hIdsEq : levelIds level2 = (levelIds level).eraseIdx idx := by
    rw [hl2def]
    show ((level.set idx ex2).eraseIdx idx).map (fun o => o.order_id) =
      (levelIds level).eraseIdx idx
    rw [lstMapEraseIdx]
    exact congrArg (fun l => l.eraseIdx idx) hsp
  have hoidMem : oid ∈ levelIds level := lstMemOfGet hgetIds
  have hoidIdx : alGet oid b.orders_by_id = some (s, price) := invB_levelMem hB hlev hoidMem
  have hoidNot2 : oid ∉ levelIds level2 := by
    rw [hIdsEq]
    exact lstNotMemEraseIdxSelf hnd hgetIds
  have hmem2 : ∀ o ∈ level2, o ∈ level ∧ o.order_id ≠ oid := by
    intro o ho
    have hne : o.order_id ≠ oid := by
      intro hcon
      exact hoidNot2 (hcon ▸ (List.mem_map.mpr ⟨o, ho, rfl⟩))
    rcases lstMemSet (lstMemOfMemEraseIdx ho) with hm | hm
    · exact ⟨hm, hne⟩
    · exact absurd (hm ▸ (hid2.trans hoid)) hne
  have hgetRes : ∀ t : Side,
      ({ (b.setSide s mp) with orders_by_id := alErase oid b.orders_by_id } : Book).getSide t =
        if t = s then mp else b.getSide t := by
    intro t
    rw [getSide_withIds, getSide_update b hs]
  refine ⟨?_, ?_, ?_⟩
  · -- InvA
    intro oid2 e hget2
    by_cases ho2 : oid2 = oid
    · rw [ho2, alGet_erase_self] at hget2
      cases hget2
    · rw [alGet_erase_ne _ ho2] at hget2
      obtain ⟨lv, hlv, hmem⟩ := hA oid2 e hget2
      rw [hgetRes]
      by_cases he : e.1 = s
      · rw [if_pos he, hmp]
        by_cases hp : e.2 = price
        · rw [he, hp] at hlv
          rw [hlv] at hlev
          simp only [Option.some.injEq] at hlev
          subst hlev
          have hm2 : oid2 ∈ levelIds level2 := by
            rw [hIdsEq]
            exact lstMemEraseIdxOfNe hmem hgetIds ho2
          have hnonempty : level2.isEmpty = false := by
            cases hne : level2.isEmpty
            · rfl
            · exfalso
              rw [List.isEmpty_iff] at hne
              rw [hne] at hm2
              simp [levelIds] at hm2
          rw [hnonempty]
          simp only [Bool.false_eq_true, if_false]
          refine ⟨level2, ?_, hm2⟩
          rw [hp, alGet_insert_self]
        · refine ⟨lv, ?_, hmem⟩
          by_cases hemp : level2.isEmpty
          · rw [if_pos hemp, alGet_erase_ne _ hp]
            rw [he] at hlv
            exact hlv
          · rw [if_neg hemp, alGet_insert_ne _ _ hp]
            rw [he] at hlv
            exact hlv
      · rw [if_neg he]
        exact ⟨lv, hlv, hmem⟩
  · -- InvB
    intro s2 p2 lv2 hget2 o ho
    rw [hgetRes] at hget2
    by_cases hs2 : s2 = s
    · rw [if_pos hs2, hmp] at hget2
      by_cases hp2 : p2 = price
      · by_cases hemp : level2.isEmpty
        · rw [if_pos hemp, hp2, alGet_erase_self] at hget2
          cases hget2
        · rw [if_neg hemp, hp2, alGet_insert_self] at hget2
          simp only [Option.some.injEq] at hget2
          rw [← hget2] at ho
          obtain ⟨hmemL, hne⟩ := hmem2 o ho
          rw [alGet_erase_ne _ hne, hs2, hp2]
          exact hB s price level hlev o hmemL
      · have hget3 : alGet p2 (b.getSide s) = some lv2 := by
          by_cases hemp : level2.isEmpty
          · rw [if_pos hemp, alGet_erase_ne _ hp2] at hget2
            exact hget2
          · rw [if_neg hemp, alGet_insert_ne _ _ hp2] at hget2
            exact hget2
        have hval := hB s p2 lv2 hget3 o ho
        have hne : o.order_id ≠ oid := by
          intro hcon
          rw [hcon, hoidIdx] at hval
          simp only [Option.some.injEq, Prod.mk.injEq] at hval
          exact hp2 hval.2.symm
        rw [alGet_erase_ne _ hne, hs2]
        exact hval
    · rw [if_neg hs2] at hget2
      have hval := hB s2 p2 lv2 hget2 o ho
      have hne : o.order_id ≠ oid := by
        intro hcon
        rw [hcon, hoidIdx] at hval
        simp only [Option.some.injEq, Prod.mk.injEq] at hval
        exact hs2 hval.1.symm
      rw [alGet_erase_ne _ hne]
      exact hval
  · -- InvC
    intro s2 p2 lv2 hget2
    rw [hgetRes] at hget2
    by_cases hs2 : s2 = s
    · rw [if_pos hs2, hmp] at hget2
      by_cases hp2 : p2 = price
      · by_cases hemp : level2.isEmpty
        · rw [if_pos hemp, hp2, alGet_erase_self] at hget2
          cases hget2
        · rw [if_neg hemp, hp2, alGet_insert_self] at hget2
          simp only [Option.some.injEq] at hget2
          rw [← hget2, hIdsEq]
          exact lstNodupEraseIdx idx hnd
      · have hget3 : alGet p2 (b.getSide s) = some lv2 := by
          by_cases hemp : level2.isEmpty
          · rw [if_pos hemp, alGet_erase_ne _ hp2] at hget2
            exact hget2
          · rw [if_neg hemp, alGet_insert_ne _ _ hp2] at hget2
            exact hget2
        exact hC s p2 lv2 hget3
    · rw [if_neg hs2] at hget2
      exact hC s2 p2 lv2 hget2

/-- `Book::cancel` preserves the invariant (its error paths do not mutate). -/
theorem inv_cancel {b : Book} {m : Msg} (hInv : Inv b) : Inv (b.cancel m).1 := by
  cases hside : m.side with
  | noSide =>
    have hres : (b.cancel m).1 = b := by
      simp [Book.cancel, hside]
    rw [hres]
    exact hInv
  | bid =>
    cases hlev : alGet m.price (b.getSide Side.bid) with
    | none =>
      have hres : (b.cancel m).1 = b := by
        simp [Book.cancel, hside, Book.getSide] at hlev ⊢
        simp [hlev]
      rw [hres]
      exact hInv
    | some level =>
      cases hfind : level.findIdx? (fun o => o.order_id = m.order_id) with
      | none =>
        have hres : (b.cancel m).1 = b := by
          simp only [Book.getSide] at hlev
          simp [Book.cancel, hside, hlev, hfind, Book.getSide]
        rw [hres]
        exact hInv
      | some idx =>
        cases hget : level[idx]? with
        | none =>
          have hres : (b.cancel m).1 = b := by
            simp only [Book.getSide] at hlev
            simp [Book.cancel, hside, hlev, hfind, hget, Book.getSide]
          rw [hres]
          exact hInv
        | some ex =>
          have hgetq : level.get? idx = some ex := by
            rw [List.get?_eq_getElem?]
            exact hget
          have hexid : ex.order_id = m.order_id := by
            obtain ⟨a, ha, hpa⟩ := lstFindIdxSome hfind
            rw [hgetq] at ha
            simp only [Option.some.injEq] at ha
            rw [ha]
            exact of_decide_eq_true hpa
          by_cases hsz : ex.size < m.size
          · have hres : (b.cancel m).1 = b := by
              simp only [Book.getSide] at hlev
              simp [Book.cancel, hside, hlev, hfind, hget, hsz, Book.getSide]
            rw [hres]
            exact hInv
          · by_cases hz : ex.size - m.size = 0
            · have hres : (b.cancel m).1 =
                  { (b.setSide Side.bid
                      (if ((level.set idx { ex with size := ex.size - m.size }).eraseIdx idx).isEmpty
                        then alErase m.price (b.getSide Side.bid)
                        else alInsert m.price
                          ((level.set idx { ex with size := ex.size - m.size }).eraseIdx idx)
                          (b.getSide Side.bid))) with
                    orders_by_id := alErase m.order_id b.orders_by_id } := by
                simp only [Book.getSide] at hlev
                simp [Book.cancel, hside, hlev, hfind, hget, hsz, hz, Book.getSide, Book.setSide]
              rw [hres]
              exact inv_cancelFull (by decide) hInv hlev hgetq hexid (ex.size - m.size) _ rfl
            · have hres : (b.cancel m).1 =
                  b.setSide Side.bid
                    (alInsert m.price (level.set idx { ex with size := ex.size - m.size })
                      (b.getSide Side.bid)) := by
                simp only [Book.getSide] at hlev
                simp [Book.cancel, hside, hlev, hfind, hget, hsz, hz, Book.getSide, Book.setSide]
              rw [hres]
              exact inv_setLevelSameIds (by decide) hInv hlev (levelIds_set_preserve hgetq rfl)
  | ask =>
    cases hlev : alGet m.price (b.getSide Side.ask) with
    | none =>
      have hres : (b.cancel m).1 = b := by
        simp [Book.cancel, hside, Book.getSide] at hlev ⊢
        simp [hlev]
      rw [hres]
      exact hInv
    | some level =>
      cases hfind : level.findIdx? (fun o => o.order_id = m.order_id) with
      | none =>
        have hres : (b.cancel m).1 = b := by
          simp only [Book.getSide] at hlev
          simp [Book.cancel, hside, hlev, hfind, Book.getSide]
        rw [hres]
        exact hInv
      | some idx =>
        cases hget : level[idx]? with
        | none =>
          have hres : (b.cancel m).1 = b := by
            simp only [Book.getSide] at hlev
            simp [Book.cancel, hside, hlev, hfind, hget, Book.getSide]
          rw [hres]
          exact hInv
        | some ex =>
          have hgetq : level.get? idx = some ex := by
            rw [List.get?_eq_getElem?]
            exact hget
          have hexid : ex.order_id = m.order_id := by
            obtain ⟨a, ha, hpa⟩ := lstFindIdxSome hfind
            rw [hgetq] at ha
            simp only [Option.some.injEq] at ha
            rw [ha]
            exact of_decide_eq_true hpa
          by_cases hsz : ex.size < m.size
          · have hres : (b.cancel m).1 = b := by
              simp only [Book.getSide] at hlev
              simp [Book.cancel, hside, hlev, hfind, hget, hsz, Book.getSide]
            rw [hres]
            exact hInv
          · by_cases hz : ex.size - m.size = 0
            · have hres : (b.cancel m).1 =
                  { (b.setSide Side.ask
                      (if ((level.set idx { ex with size := ex.size - m.size }).eraseIdx idx).isEmpty
                        then alErase m.price (b.getSide Side.ask)
                        else alInsert m.price
                          ((level.set idx { ex with size := ex.size - m.size }).eraseIdx idx)
                          (b.getSide Side.ask))) with
                    orders_by_id := alErase m.order_id b.orders_by_id } := by
                simp only [Book.getSide] at hlev
                simp [Book.cancel, hside, hlev, hfind, hget, hsz, hz, Book.getSide, Book.setSide]
              rw [hres]
              exact inv_cancelFull (by decide) hInv hlev hgetq hexid (ex.size - m.size) _ rfl
            · have hres : (b.cancel m).1 =
                  b.setSide Side.ask
                    (alInsert m.price (level.set idx { ex with size := ex.size - m.size })
                      (b.getSide Side.ask)) := by
                simp only [Book.getSide] at hlev
                simp [Book.cancel, hside, hlev, hfind, hget, hsz, hz, Book.getSide, Book.setSide]
              rw [hres]
              exact inv_setLevelSameIds (by decide) hInv hlev (levelIds_set_preserve hgetq rfl)

/-- Re-pricing a resting order: its entry moves to the new price, it is
removed from its old level (which may disappear) and appended to the tail of
the destination level.  The invariant is preserved. -/
theorem inv_requeue {b : Book} {m : Msg} {s : Side} (hs : s ≠ Side.noSide)
    {prevPrice : Int} {level : Level} {idx : Nat} {ex : Msg} (hInv : Inv b)
    (hlev : alGet prevPrice (b.getSide s) = some level)
    (hgetIdx : level.get? idx = some ex)
    (hexid : ex.order_id = m.order_id)
    (hentry : alGet m.order_id b.orders_by_id = some (s, prevPrice))
    (hpne : prevPrice ≠ m.price) (n : Nat)
    (M2 : List (Int × Level))
    (hM2 : ∀ q : Int, alGet q M2 =
      if q = m.price then some (((alGet m.price (b.getSide s)).getD []) ++ [m])
      else if q = prevPrice then
        (if ((level.set idx { ex with size := n }).eraseIdx idx).isEmpty then none
         else some ((level.set idx { ex with size := n }).eraseIdx idx))
      else alGet q (b.getSide s)) :
    Inv { (b.setSide s M2) with
          orders_by_id := alInsert m.order_id (s, m.price) b.orders_by_id } := by
  obtain ⟨hA, hB, hC⟩ := hInv
  set ex2 : Msg := { ex with size := n } with hex2def
  set level2 : Level := (level.set idx ex2).eraseIdx idx with hl2def
  have hnd : (levelIds level).Nodup := hC s prevPrice level hlev
  have hgetIds : (levelIds level).get? idx = some m.order_id := by
    rw [levelIds, lstGetMap, hgetIdx]
    exact congrArg some hexid
  have hsp : levelIds (level.set idx ex2) = levelIds level :=
    levelIds_set_preserve hgetIdx rfl
  have hIdsEq : levelIds level2 = (levelIds level).eraseIdx idx := by
    rw [hl2def]
    show ((level.set idx ex2).eraseIdx idx).map (fun o => o.order_id) =
      (levelIds level).eraseIdx idx
    rw [lstMapEraseIdx]
    exact congrArg (fun l => l.eraseIdx idx) hsp
  have hoidNot2 : m.order_id ∉ levelIds level2 := by
    rw [hIdsEq]
    exact lstNotMemEraseIdxSelf hnd hgetIds
  have hmem2 : ∀ o ∈ level2, o ∈ level ∧ o.order_id ≠ m.order_id := by
    intro o ho
    have hne : o.order_id ≠ m.order_id := by
      intro hcon
      exact hoidNot2 (hcon ▸ (List.mem_map.mpr ⟨o, ho, rfl⟩))
    rcases lstMemSet (lstMemOfMemEraseIdx ho) with hm | hm
    · exact ⟨hm, hne⟩
    · exact absurd (hm ▸ hexid) hne
  have hdestNot : ∀ lvD, alGet m.price (b.getSide s) = some lvD →
      m.order_id ∉ levelIds lvD := by
    intro lvD hD hmem
    have := invB_levelMem hB hD hmem
    rw [hentry] at this
    simp only [Option.some.injEq, Prod.mk.injEq] at this
    exact hpne this.2
  have hgetRes : ∀ t : Side,
      ({ (b.setSide s M2) with
          orders_by_id := alInsert m.order_id (s, m.price) b.orders_by_id } : Book).getSide t =
        if t = s then M2 else b.getSide t := by
    intro t
    rw [getSide_withIds, getSide_update b hs]
  refine ⟨?_, ?_, ?_⟩
  · -- InvA
    intro oid2 e hget2
    by_cases ho2 : oid2 = m.order_id
    · subst ho2
      rw [alGet_insert_self] at hget2
      simp only [Option.some.injEq] at hget2
      rw [← hget2]
      rw [hgetRes]
      rw [if_pos rfl]
      refine ⟨((alGet m.price (b.getSide s)).getD []) ++ [m], ?_, ?_⟩
      · rw [hM2, if_pos rfl]
      · simp [levelIds]
    · rw [alGet_insert_ne _ _ ho2] at hget2
      obtain ⟨lv, hlv, hmem⟩ := hA oid2 e hget2
      rw [hgetRes]
      by_cases he : e.1 = s
      · rw [if_pos he, hM2]
        by_cases hp : e.2 = m.price
        · rw [if_pos hp]
          rw [he, hp] at hlv
          refine ⟨((alGet m.price (b.getSide s)).getD []) ++ [m], rfl, ?_⟩
          rw [hlv]
          simp only [levelIds, Option.getD_some, List.map_append, List.mem_append]
          exact Or.inl hmem
        · rw [if_neg hp]
          by_cases hpp : e.2 = prevPrice
          · rw [if_pos hpp]
            rw [he, hpp] at hlv
            rw [hlv] at hlev
            simp only [Option.some.injEq] at hlev
            subst hlev
            have hm2 : oid2 ∈ levelIds level2 := by
              rw [hIdsEq]
              exact lstMemEraseIdxOfNe hmem hgetIds ho2
            have hnonempty : level2.isEmpty = false := by
              cases hne2 : level2.isEmpty
              · rfl
              · exfalso
                rw [List.isEmpty_iff] at hne2
                rw [hne2] at hm2
                simp [levelIds] at hm2
            rw [hnonempty]
            simp only [Bool.false_eq_true, if_false]
            exact ⟨level2, rfl, hm2⟩
          · rw [if_neg hpp]
            rw [he] at hlv
            exact ⟨lv, hlv, hmem⟩
      · rw [if_neg he]
        exact ⟨lv, hlv, hmem⟩
  · -- InvB
    intro s2 p2 lv2 hget2 o ho
    rw [hgetRes] at hget2
    by_cases hs2 : s2 = s
    · rw [if_pos hs2, hM2] at hget2
      by_cases hp2 : p2 = m.price
      · rw [if_pos hp2] at hget2
        simp only [Option.some.injEq] at hget2
        rw [← hget2] at ho
        rcases List.mem_append.mp ho with hm | hm
        · cases hD : alGet m.price (b.getSide s) with
          | none =>
            rw [hD] at hm
            simp at hm
          | some lvD =>
            rw [hD] at hm
            simp only [Option.getD_some] at hm
            have hval := hB s m.price lvD hD o hm
            have hne : o.order_id ≠ m.order_id := by
              intro hcon
              exact hdestNot lvD hD (hcon ▸ (List.mem_map.mpr ⟨o, hm, rfl⟩))
            rw [alGet_insert_ne _ _ hne, hs2, hp2]
            exact hval
        · simp only [List.mem_singleton] at hm
          subst hm
          rw [alGet_insert_self, hs2, hp2]
      · rw [if_neg hp2] at hget2
        by_cases hpp : p2 = prevPrice
        · rw [if_pos hpp] at hget2
          by_cases hemp : level2.isEmpty
          · rw [if_pos hemp] at hget2
            cases hget2
          · rw [if_neg hemp] at hget2
            simp only [Option.some.injEq] at hget2
            rw [← hget2] at ho
            obtain ⟨hmemL, hne⟩ := hmem2 o ho
            rw [alGet_insert_ne _ _ hne, hs2, hpp]
            exact hB s prevPrice level hlev o hmemL
        · rw [if_neg hpp] at hget2
          have hval := hB s p2 lv2 hget2 o ho
          have hne : o.order_id ≠ m.order_id := by
            intro hcon
            rw [hcon, hentry] at hval
            simp only [Option.some.injEq, Prod.mk.injEq] at hval
            exact hpp hval.2.symm
          rw [alGet_insert_ne _ _ hne, hs2]
          exact hval
    · rw [if_neg hs2] at hget2
      have hval := hB s2 p2 lv2 hget2 o ho
      have hne : o.order_id ≠ m.order_id := by
        intro hcon
        rw [hcon, hentry] at hval
        simp only [Option.some.injEq, Prod.mk.injEq] at hval
        exact hs2 hval.1.symm
      rw [alGet_insert_ne _ _ hne]
      exact hval
  · -- InvC
    intro s2 p2 lv2 hget2
    rw [hgetRes] at hget2
    by_cases hs2 : s2 = s
    · rw [if_pos hs2, hM2] at hget2
      by_cases hp2 : p2 = m.price
      · rw [if_pos hp2] at hget2
        simp only [Option.some.injEq] at hget2
        rw [← hget2]
        simp only [levelIds, List.map_append]
        cases hD : alGet m.price (b.getSide s) with
        | none => simp
        | some lvD =>
          simp only [Option.getD_some, List.map_cons, List.map_nil]
          exact lstNodupSnoc (hC s m.price lvD hD) (hdestNot lvD hD)
      · rw [if_neg hp2] at hget2
        by_cases hpp : p2 = prevPrice
        · rw [if_pos hpp] at hget2
          by_cases hemp : level2.isEmpty
          · rw [if_pos hemp] at hget2
            cases hget2
          · rw [if_neg hemp] at hget2
            simp only [Option.some.injEq] at hget2
            rw [← hget2, hIdsEq]
            exact lstNodupEraseIdx idx hnd
        · rw [if_neg hpp] at hget2
          exact hC s p2 lv2 hget2
    · rw [if_neg hs2] at hget2
      exact hC s2 p2 lv2 hget2

/-- `Book::modify` preserves the invariant when it succeeds and the message
carries the resting order's current side. -/
theorem inv_modify {b : Book} {m : Msg} (hInv : Inv b)
    (hgood : ∀ p q, alGet m.order_id b.orders_by_id = some (p, q) → p = m.side)
    (hOk : isOk (b.modify m).2 = true) : Inv (b.modify m).1 := by
  cases hentry : alGet m.order_id b.orders_by_id with
  | none =>
    have hres : (b.modify m).1 = b := by
      simp [Book.modify, hentry]
    rw [hres]
    exact hInv
  | some pe =>
    obtain ⟨prevSide, prevPrice⟩ := pe
    have hgs : prevSide = m.side := hgood prevSide prevPrice hentry
    cases hms : m.side with
    | noSide =>
      exfalso
      have hps : prevSide = Side.noSide := hgs.trans hms
      subst hps
      simp [Book.modify, hentry, isOk] at hOk
    | bid =>
      have hps : prevSide = Side.bid := hgs.trans hms
      subst hps
      cases hlev : alGet prevPrice (b.getSide Side.bid) with
      | none =>
        exfalso
        simp only [Book.getSide] at hlev
        simp [Book.modify, hentry, hlev, isOk, Book.getSide] at hOk
      | some level =>
        cases hfind : level.findIdx? (fun o => o.order_id = m.order_id) with
        | none =>
          exfalso
          simp only [Book.getSide] at hlev
          simp [Book.modify, hentry, hlev, hfind, isOk, Book.getSide] at hOk
        | some idx =>
          cases hget : level[idx]? with
          | none =>
            exfalso
            simp only [Book.getSide] at hlev
            simp [Book.modify, hentry, hlev, hfind, hget, isOk, Book.getSide] at hOk
          | some ex =>
            have hgetq : level.get? idx = some ex := by
              rw [List.get?_eq_getElem?]
              exact hget
            have hexid : ex.order_id = m.order_id := by
              obtain ⟨a, ha, hpa⟩ := lstFindIdxSome hfind
              rw [hgetq] at ha
              simp only [Option.some.injEq] at ha
              rw [ha]
              exact of_decide_eq_true hpa
            by_cases hpp : prevPrice = m.price
            · subst hpp
              have hids_eq : alInsert m.order_id (m.side, m.price) b.orders_by_id =
                  b.orders_by_id := by
                rw [hms]
                exact alInsert_self_eq hentry
              have hres : (b.modify m).1 =
                  b.setSide Side.bid
                    (alInsert m.price (level.set idx { ex with size := m.size })
                      (b.getSide Side.bid)) := by
                simp only [Book.getSide] at hlev
                simp [Book.modify, hentry, hlev, hfind, hget, hids_eq,
                  Book.getSide, Book.setSide]
              rw [hres]
              exact inv_setLevelSameIds (by decide) hInv hlev (levelIds_set_preserve hgetq rfl)
            · by_cases hemp : ((level.set idx { ex with size := m.size }).eraseIdx idx).isEmpty
              · have hres : (b.modify m).1 =
                    { (b.setSide Side.bid (alUpsert m.price [] (fun lv => lv ++ [m])
                        (alErase prevPrice (alInsert prevPrice
                          ((level.set idx { ex with size := m.size }).eraseIdx idx)
                          (b.getSide Side.bid))))) with
                      orders_by_id := alInsert m.order_id (Side.bid, m.price) b.orders_by_id } := by
                  simp only [Book.getSide] at hlev
                  simp [Book.modify, Book.removeLevel, Book.getOrInsertPush, hentry, hlev,
                    hfind, hget, hpp, hemp, hms, alGet_insert_self, Book.getSide, Book.setSide]
                rw [hres]
                refine inv_requeue (by decide) hInv hlev hgetq hexid hentry hpp m.size _ ?_
                intro q
                by_cases hq : q = m.price
                · rw [if_pos hq, hq, alGet_upsert_self]
                  have hinner : alGet m.price
                      (alErase prevPrice (alInsert prevPrice
                        ((level.set idx { ex with size := m.size }).eraseIdx idx)
                        (b.getSide Side.bid))) = alGet m.price (b.getSide Side.bid) := by
                    rw [alGet_erase_ne _ (fun hcon => hpp hcon.symm),
                      alGet_insert_ne _ _ (fun hcon => hpp hcon.symm)]
                  rw [hinner]
                · rw [if_neg hq, alGet_upsert_ne _ _ _ hq]
                  by_cases hqp : q = prevPrice
                  · rw [if_pos hqp, if_pos hemp, hqp, alGet_erase_self]
                  · rw [if_neg hqp, alGet_erase_ne _ hqp, alGet_insert_ne _ _ hqp]
              · have hres : (b.modify m).1 =
                    { (b.setSide Side.bid (alUpsert m.price [] (fun lv => lv ++ [m])
                        (alInsert prevPrice
                          ((level.set idx { ex with size := m.size }).eraseIdx idx)
                          (b.getSide Side.bid)))) with
                      orders_by_id := alInsert m.order_id (Side.bid, m.price) b.orders_by_id } := by
                  simp only [Book.getSide] at hlev
                  simp [Book.modify, Book.getOrInsertPush, hentry, hlev,
                    hfind, hget, hpp, hemp, hms, Book.getSide, Book.setSide]
                rw [hres]
                refine inv_requeue (by decide) hInv hlev hgetq hexid hentry hpp m.size _ ?_
                intro q
                by_cases hq : q = m.price
                · rw [if_pos hq, hq, alGet_upsert_self]
                  have hinner : alGet m.price
                      (alInsert prevPrice
                        ((level.set idx { ex with size := m.size }).eraseIdx idx)
                        (b.getSide Side.bid)) = alGet m.price (b.getSide Side.bid) := by
                    rw [alGet_insert_ne _ _ (fun hcon => hpp hcon.symm)]
                  rw [hinner]
                · rw [if_neg hq, alGet_upsert_ne _ _ _ hq]
                  by_cases hqp : q = prevPrice
                  · rw [if_pos hqp, hqp, alGet_insert_self]
                    rw [if_neg (show ¬ ((level.set idx { ex with size := m.size }).eraseIdx idx).isEmpty = true from hemp)]
                  · rw [if_neg hqp, alGet_insert_ne _ _ hqp]
    | ask =>
      have hps : prevSide = Side.ask := hgs.trans hms
      subst hps
      cases hlev : alGet prevPrice (b.getSide Side.ask) with
      | none =>
        exfalso
        simp only [Book.getSide] at hlev
        simp [Book.modify, hentry, hlev, isOk, Book.getSide] at hOk
      | some level =>
        cases hfind : level.findIdx? (fun o => o.order_id = m.order_id) with
        | none =>
          exfalso
          simp only [Book.getSide] at hlev
          simp [Book.modify, hentry, hlev, hfind, isOk, Book.getSide] at hOk
        | some idx =>
          cases hget : level[idx]? with
          | none =>
            exfalso
            simp only [Book.getSide] at hlev
            simp [Book.modify, hentry, hlev, hfind, hget, isOk, Book.getSide] at hOk
          | some ex =>
            have hgetq : level.get? idx = some ex := by
              rw [List.get?_eq_getElem?]
              exact hget
            have hexid : ex.order_id = m.order_id := by
              obtain ⟨a, ha, hpa⟩ := lstFindIdxSome hfind
              rw [hgetq] at ha
              simp only [Option.some.injEq] at ha
              rw [ha]
              exact of_decide_eq_true hpa
            by_cases hpp : prevPrice = m.price
            · subst hpp
              have hids_eq : alInsert m.order_id (m.side, m.price) b.orders_by_id =
                  b.orders_by_id := by
                rw [hms]
                exact alInsert_self_eq hentry
              have hres : (b.modify m).1 =
                  b.setSide Side.ask
                    (alInsert m.price (level.set idx { ex with size := m.size })
                      (b.getSide Side.ask)) := by
                simp only [Book.getSide] at hlev
                simp [Book.modify, hentry, hlev, hfind, hget, hids_eq,
                  Book.getSide, Book.setSide]
              rw [hres]
              exact inv_setLevelSameIds (by decide) hInv hlev (levelIds_set_preserve hgetq rfl)
            · by_cases hemp : ((level.set idx { ex with size := m.size }).eraseIdx idx).isEmpty
              · have hres : (b.modify m).1 =
                    { (b.setSide Side.ask (alUpsert m.price [] (fun lv => lv ++ [m])
                        (alErase prevPrice (alInsert prevPrice
                          ((level.set idx { ex with size := m.size }).eraseIdx idx)
                          (b.getSide Side.ask))))) with
                      orders_by_id := alInsert m.order_id (Side.ask, m.price) b.orders_by_id } := by
                  simp only [Book.getSide] at hlev
                  simp [Book.modify, Book.removeLevel, Book.getOrInsertPush, hentry, hlev,
                    hfind, hget, hpp, hemp, hms, alGet_insert_self, Book.getSide, Book.setSide]
                rw [hres]
                refine inv_requeue (by decide) hInv hlev hgetq hexid hentry hpp m.size _ ?_
                intro q
                by_cases hq : q = m.price
                · rw [if_pos hq, hq, alGet_upsert_self]
                  have hinner : alGet m.price
                      (alErase prevPrice (alInsert prevPrice
                        ((level.set idx { ex with size := m.size }).eraseIdx idx)
                        (b.getSide Side.ask))) = alGet m.price (b.getSide Side.ask) := by
                    rw [alGet_erase_ne _ (fun hcon => hpp hcon.symm),
                      alGet_insert_ne _ _ (fun hcon => hpp hcon.symm)]
                  rw [hinner]
                · rw [if_neg hq, alGet_upsert_ne _ _ _ hq]
                  by_cases hqp : q = prevPrice
                  · rw [if_pos hqp, if_pos hemp, hqp, alGet_erase_self]
                  · rw [if_neg hqp, alGet_erase_ne _ hqp, alGet_insert_ne _ _ hqp]
              · have hres : (b.modify m).1 =
                    { (b.setSide Side.ask (alUpsert m.price [] (fun lv => lv ++ [m])
                        (alInsert prevPrice
                          ((level.set idx { ex with size := m.size }).eraseIdx idx)
                          (b.getSide Side.ask)))) with
                      orders_by_id := alInsert m.order_id (Side.ask, m.price) b.orders_by_id } := by
                  simp only [Book.getSide] at hlev
                  simp [Book.modify, Book.getOrInsertPush, hentry, hlev,
                    hfind, hget, hpp, hemp, hms, Book.getSide, Book.setSide]
                rw [hres]
                refine inv_requeue (by decide) hInv hlev hgetq hexid hentry hpp m.size _ ?_
                intro q
                by_cases hq : q = m.price
                · rw [if_pos hq, hq, alGet_upsert_self]
                  have hinner : alGet m.price
                      (alInsert prevPrice
                        ((level.set idx { ex with size := m.size }).eraseIdx idx)
                        (b.getSide Side.ask)) = alGet m.price (b.getSide Side.ask) := by
                    rw [alGet_insert_ne _ _ (fun hcon => hpp hcon.symm)]
                  rw [hinner]
                · rw [if_neg hq, alGet_upsert_ne _ _ _ hq]
                  by_cases hqp : q = prevPrice
                  · rw [if_pos hqp, hqp, alGet_insert_self]
                    rw [if_neg (show ¬ ((level.set idx { ex with size := m.size }).eraseIdx idx).isEmpty = true from hemp)]
                  · rw [if_neg hqp, alGet_insert_ne _ _ hqp]

/-- One successful, well-behaved `Book::apply` preserves the invariant. -/
theorem inv_step {b : Book} {m : Msg} (hInv : Inv b) (hGood : goodMsgB b m = true)
    (hOk : isOk (b.apply m).2 = true) : Inv (b.apply m).1 := by
  cases hact : m.action with
  | none =>
    exfalso
    simp [Book.apply, hact, isOk] at hOk
  | some a =>
    cases a with
    | add =>
      have htob : m.is_tob = false := by
        simp [goodMsgB, hact] at hGood
        exact hGood
      have hres : (b.apply m).1 = (b.add m).1 := by
        simp [Book.apply, hact]
      have hOk2 : isOk (b.add m).2 = true := by
        simp [Book.apply, hact] at hOk
        exact hOk
      rw [hres]
      exact inv_add hInv htob hOk2
    | cancel =>
      have hres : (b.apply m).1 = (b.cancel m).1 := by
        rcases hc : b.cancel m with ⟨b2, r⟩
        cases r <;> simp [Book.apply, hact, hc]
      rw [hres]
      exact inv_cancel hInv
    | modify =>
      have hgood2 : ∀ p q, alGet m.order_id b.orders_by_id = some (p, q) → p = m.side := by
        intro p q hpq
        simp [goodMsgB, hact, hpq] at hGood
        exact hGood
      have hres : (b.apply m).1 = (b.modify m).1 := by
        rcases hc : b.modify m with ⟨b2, r⟩
        cases r <;> simp [Book.apply, hact, hc]
      have hOk2 : isOk (b.modify m).2 = true := by
        rcases hc : b.modify m with ⟨b2, r⟩
        cases r with
        | ok v => simp [isOk, hc]
        | error e =>
          exfalso
          simp [Book.apply, hact, hc, isOk] at hOk
      rw [hres]
      exact inv_modify hInv hgood2 hOk2
    | clear =>
      have hres : (b.apply m).1 = Book.empty := by
        simp [Book.apply, hact, Book.clear]
      rw [hres]
      exact inv_empty
    | trade =>
      have hres : (b.apply m).1 = b := by
        simp [Book.apply, hact]
      rw [hres]
      exact hInv
    | fill =>
      have hres : (b.apply m).1 = b := by
        simp [Book.apply, hact]
      rw [hres]
      exact hInv
    | noAction =>
      have hres : (b.apply m).1 = b := by
        simp [Book.apply, hact]
      rw [hres]
      exact hInv

/-- The invariant holds after any well-behaved successful run. -/
theorem inv_goodRun : ∀ (ms : List Msg) (b : Book), Inv b → goodRunB b ms = true →
    Inv (runBook b ms) := by
  intro ms
  induction ms with
  | nil =>
    intro b hInv _
    exact hInv
  | cons m ms ih =>
    intro b hInv hrun
    simp only [goodRunB, Bool.and_eq_true] at hrun
    obtain ⟨⟨hg, hok⟩, hrest⟩ := hrun
    exact ih (stepBook b m) (inv_step hInv hg hok) hrest

/-! ### Aggregated BBO -/

theorem plFold_aux (os : List Msg) (acc : PriceLevel)
    (hs : acc.size < U32MOD) (hc : acc.count < U32MOD) :
    (os.foldl
      (fun lv o =>
        { lv with
          count := if o.is_tob then lv.count else (lv.count + 1) % U32MOD
          size := (lv.size + o.size) % U32MOD }) acc).price = acc.price ∧
    (os.foldl
      (fun lv o =>
        { lv with
          count := if o.is_tob then lv.count else (lv.count + 1) % U32MOD
          size := (lv.size + o.size) % U32MOD }) acc).size < U32MOD ∧
    (os.foldl
      (fun lv o =>
        { lv with
          count := if o.is_tob then lv.count else (lv.count + 1) % U32MOD
          size := (lv.size + o.size) % U32MOD }) acc).count < U32MOD := by
  induction os generalizing acc with
  | nil => exact ⟨rfl, hs, hc⟩
  | cons o os ih =>
    simp only [List.foldl_cons]
    refine ih _ ?_ ?_
    · exact Nat.mod_lt _ (by simp [U32MOD])
    · by_cases ht : o.is_tob
      · simp only [ht, if_pos rfl]
        exact hc
      · simp only [if_neg ht]
        exact Nat.mod_lt _ (by simp [U32MOD])

/-- A computed `PriceLevel` carries its price and u32-bounded size and
count. -/
theorem priceLevelNew_bounds (p : Int) (os : List Msg) :
    (PriceLevel.new p os).price = p ∧ (PriceLevel.new p os).size < U32MOD ∧
      (PriceLevel.new p os).count < U32MOD := by
  have := plFold_aux os { price := p, size := 0, count := 0 }
    (by simp [U32MOD]) (by simp [U32MOD])
  exact ⟨this.1, this.2.1, this.2.2⟩

theorem bboBid_bounds {b : Book} {lv : PriceLevel} (h : b.bbo.1 = some lv) :
    lv.size < U32MOD ∧ lv.count < U32MOD := by
  simp only [Book.bbo, Book.bidLevel, Option.bind_eq_some] at h
  obtain ⟨k, _, h2⟩ := h
  rw [Option.map_eq_some'] at h2
  obtain ⟨lvl, _, h3⟩ := h2
  rw [← h3]
  exact (priceLevelNew_bounds k lvl).2

theorem bboAsk_bounds {b : Book} {lv : PriceLevel} (h : b.bbo.2 = some lv) :
    lv.size < U32MOD ∧ lv.count < U32MOD := by
  simp only [Book.bbo, Book.askLevel, Option.bind_eq_some] at h
  obtain ⟨k, _, h2⟩ := h
  rw [Option.map_eq_some'] at h2
  obtain ⟨lvl, _, h3⟩ := h2
  rw [← h3]
  exact (priceLevelNew_bounds k lvl).2

theorem listMax?_eq_none {l : List Int} (h : listMax? l = none) : l = [] := by
  cases l with
  | nil => rfl
  | cons a b =>
    simp only [listMax?] at h
    cases ht : listMax? b <;> rw [ht] at h <;> simp at h

theorem listMin?_eq_none {l : List Int} (h : listMin? l = none) : l = [] := by
  cases l with
  | nil => rfl
  | cons a b =>
    simp only [listMin?] at h
    cases ht : listMin? b <;> rw [ht] at h <;> simp at h

theorem listMax?_snoc (l : List Int) (x : Int) :
    listMax? (l ++ [x]) =
      some (match listMax? l with | none => x | some m => max m x) := by
  induction l with
  | nil => simp [listMax?]
  | cons y ys ih =>
    rw [List.cons_append]
    simp only [listMax?]
    rw [ih]
    cases hys : listMax? ys with
    | none => rfl
    | some m =>
      simp only [Option.some.injEq]
      rw [max_assoc]

theorem listMin?_snoc (l : List Int) (x : Int) :
    listMin? (l ++ [x]) =
      some (match listMin? l with | none => x | some m => min m x) := by
  induction l with
  | nil => simp [listMin?]
  | cons y ys ih =>
    rw [List.cons_append]
    simp only [listMin?]
    rw [ih]
    cases hys : listMin? ys with
    | none => rfl
    | some m =>
      simp only [Option.some.injEq]
      rw [min_assoc]

theorem listMax?_ge {l : List Int} {k : Int} (h : listMax? l = some k) :
    ∀ x ∈ l, x ≤ k := by
  induction l generalizing k with
  | nil => simp [listMax?] at h
  | cons y ys ih =>
    simp only [listMax?] at h
    intro x hx
    rcases List.mem_cons.mp hx with hm | hm
    · cases hys : listMax? ys with
      | none =>
        rw [hys] at h
        simp only [Option.some.injEq] at h
        omega
      | some m =>
        rw [hys] at h
        simp only [Option.some.injEq] at h
        subst hm
        rw [← h]
        exact le_max_left _ _
    · cases hys : listMax? ys with
      | none =>
        rw [listMax?_eq_none hys] at hm
        simp at hm
      | some m =>
        rw [hys] at h
        simp only [Option.some.injEq] at h
        have := ih hys x hm
        rw [← h]
        exact le_trans this (le_max_right _ _)

theorem listMin?_le {l : List Int} {k : Int} (h : listMin? l = some k) :
    ∀ x ∈ l, k ≤ x := by
  induction l generalizing k with
  | nil => simp [listMin?] at h
  | cons y ys ih =>
    simp only [listMin?] at h
    intro x hx
    rcases List.mem_cons.mp hx with hm | hm
    · cases hys : listMin? ys with
      | none =>
        rw [hys] at h
        simp only [Option.some.injEq] at h
        omega
      | some m =>
        rw [hys] at h
        simp only [Option.some.injEq] at h
        subst hm
        rw [← h]
        exact min_le_left _ _
    · cases hys : listMin? ys with
      | none =>
        rw [listMin?_eq_none hys] at hm
        simp at hm
      | some m =>
        rw [hys] at h
        simp only [Option.some.injEq] at h
        have := ih hys x hm
        rw [← h]
        exact le_trans (min_le_right _ _) this

/-- The bid-side merge fold computes the maximum price with sizes and counts
of all best bids tied at that price summed (u32 wrapping). -/
theorem aggBid_char (bl : List PriceLevel)
    (hb : ∀ lv ∈ bl, lv.size < U32MOD ∧ lv.count < U32MOD) :
    ∀ mp, listMax? (bl.map PriceLevel.price) = some mp →
      bl.foldl (fun acc lv => aggStepBid acc (some lv)) none =
        some { price := mp
               size := (((bl.filter (fun lv => lv.price = mp)).map PriceLevel.size).sum) % U32MOD
               count := (((bl.filter (fun lv => lv.price = mp)).map PriceLevel.count).sum) % U32MOD } := by
  induction bl using List.reverseRecOn with
  | nil =>
    intro mp hmp
    simp [listMax?] at hmp
  | append_singleton l x ih =>
    intro mp hmp
    have hx := hb x (List.mem_append_right l (List.mem_singleton.mpr rfl))
    rw [List.map_append, List.map_singleton, listMax?_snoc] at hmp
    simp only [Option.some.injEq] at hmp
    rw [List.foldl_append, List.foldl_cons, List.foldl_nil]
    cases hl : listMax? (l.map PriceLevel.price) with
    | none =>
      have hlnil : l = [] := by
        have := listMax?_eq_none hl
        cases l with
        | nil => rfl
        | cons a b => simp at this
      subst hlnil
      rw [hl] at hmp
      simp only [List.foldl_nil, List.nil_append]
      simp only [aggStepBid]
      rw [← hmp]
      simp only [List.filter_cons, List.filter_nil]
      rw [if_pos (by simp)]
      simp only [List.map_cons, List.map_nil, List.sum_cons, List.sum_nil, Nat.add_zero]
      rw [Nat.mod_eq_of_lt hx.1, Nat.mod_eq_of_lt hx.2]
    | some m0 =>
      rw [hl] at hmp
      have hAll : ∀ lv ∈ l, lv.price ≤ m0 := by
        intro lv hm
        exact listMax?_ge hl lv.price (List.mem_map.mpr ⟨lv, hm, rfl⟩)
      have hA := ih (fun lv hm => hb lv (List.mem_append_left _ hm)) m0 hl
      rw [hA]
      rcases lt_trichotomy x.price m0 with hlt | heq | hgt
      · have hmpm : mp = m0 := by
          rw [← hmp]
          exact max_eq_left (le_of_lt hlt)
        subst hmpm
        simp only [aggStepBid]
        rw [if_neg (by simp; omega), if_neg (by omega)]
        rw [List.filter_append]
        have hfx : List.filter (fun lv => decide (lv.price = mp)) [x] = [] := by
          simp only [List.filter_cons, List.filter_nil]
          rw [if_neg (by simp; omega)]
        rw [hfx, List.append_nil]
      · have hmpm : mp = m0 := by
          rw [← hmp]
          exact max_eq_left (le_of_eq heq)
        subst hmpm
        simp only [aggStepBid]
        rw [if_neg (by simp; omega), if_pos heq]
        simp only [Option.some.injEq]
        rw [List.filter_append]
        have hfx : List.filter (fun lv => decide (lv.price = mp)) [x] = [x] := by
          simp only [List.filter_cons, List.filter_nil]
          rw [if_pos (by simp; omega)]
        rw [hfx, List.map_append, List.map_append, List.sum_append, List.sum_append]
        simp only [List.map_cons, List.map_nil, List.sum_cons, List.sum_nil, Nat.add_zero]
        rw [Nat.mod_add_mod, Nat.mod_add_mod]
      · have hmpm : mp = x.price := by
          rw [← hmp]
          exact max_eq_right (le_of_lt hgt)
        subst hmpm
        simp only [aggStepBid]
        rw [if_pos (by omega)]
        rw [List.filter_append]
        have hfl : List.filter (fun lv => decide (lv.price = x.price)) l = [] := by
          rw [List.filter_eq_nil]
          intro lv hm
          simp only [decide_eq_true_eq]
          have := hAll lv hm
          omega
        have hfx : List.filter (fun lv => decide (lv.price = x.price)) [x] = [x] := by
          simp only [List.filter_cons, List.filter_nil]
          rw [if_pos (by simp)]
        rw [hfl, hfx, List.nil_append]
        simp only [List.map_cons, List.map_nil, List.sum_cons, List.sum_nil, Nat.add_zero]
        rw [Nat.mod_eq_of_lt hx.1, Nat.mod_eq_of_lt hx.2]

/-- The ask-side merge fold computes the minimum price with tied best asks
merged. -/
theorem aggAsk_char (bl : List PriceLevel)
    (hb : ∀ lv ∈ bl, lv.size < U32MOD ∧ lv.count < U32MOD) :
    ∀ mp, listMin? (bl.map PriceLevel.price) = some mp →
      bl.foldl (fun acc lv => aggStepAsk acc (some lv)) none =
        some { price := mp
               size := (((bl.filter (fun lv => lv.price = mp)).map PriceLevel.size).sum) % U32MOD
               count := (((bl.filter (fun lv => lv.price = mp)).map PriceLevel.count).sum) % U32MOD } := by
  induction bl using List.reverseRecOn with
  | nil =>
    intro mp hmp
    simp [listMin?] at hmp
  | append_singleton l x ih =>
    intro mp hmp
    have hx := hb x (List.mem_append_right l (List.mem_singleton.mpr rfl))
    rw [List.map_append, List.map_singleton, listMin?_snoc] at hmp
    simp only [Option.some.injEq] at hmp
    rw [List.foldl_append, List.foldl_cons, List.foldl_nil]
    cases hl : listMin? (l.map PriceLevel.price) with
    | none =>
      have hlnil : l = [] := by
        have := listMin?_eq_none hl
        cases l with
        | nil => rfl
        | cons a b => simp at this
      subst hlnil
      rw [hl] at hmp
      simp only [List.foldl_nil, List.nil_append]
      simp only [aggStepAsk]
      rw [← hmp]
      simp only [List.filter_cons, List.filter_nil]
      rw [if_pos (by simp)]
      simp only [List.map_cons, List.map_nil, List.sum_cons, List.sum_nil, Nat.add_zero]
      rw [Nat.mod_eq_of_lt hx.1, Nat.mod_eq_of_lt hx.2]
    | some m0 =>
      rw [hl] at hmp
      have hAll : ∀ lv ∈ l, m0 ≤ lv.price := by
        intro lv hm
        exact listMin?_le hl lv.price (List.mem_map.mpr ⟨lv, hm, rfl⟩)
      have hA := ih (fun lv hm => hb lv (List.mem_append_left _ hm)) m0 hl
      rw [hA]
      rcases lt_trichotomy x.price m0 with hlt | heq | hgt
      · have hmpm : mp = x.price := by
          rw [← hmp]
          exact min_eq_right (le_of_lt hlt)
        subst hmpm
        simp only [aggStepAsk]
        rw [if_pos (by omega)]
        rw [List.filter_append]
        have hfl : List.filter (fun lv => decide (lv.price = x.price)) l = [] := by
          rw [List.filter_eq_nil]
          intro lv hm
          simp only [decide_eq_true_eq]
          have := hAll lv hm
          omega
        have hfx : List.filter (fun lv => decide (lv.price = x.price)) [x] = [x] := by
          simp only [List.filter_cons, List.filter_nil]
          rw [if_pos (by simp)]
        rw [hfl, hfx, List.nil_append]
        simp only [List.map_cons, List.map_nil, List.sum_cons, List.sum_nil, Nat.add_zero]
        rw [Nat.mod_eq_of_lt hx.1, Nat.mod_eq_of_lt hx.2]
      · have hmpm : mp = m0 := by
          rw [← hmp]
          exact min_eq_left (le_of_eq heq.symm)
        subst hmpm
        simp only [aggStepAsk]
        rw [if_neg (by omega), if_pos heq]
        simp only [Option.some.injEq]
        rw [List.filter_append]
        have hfx : List.filter (fun lv => decide (lv.price = mp)) [x] = [x] := by
          simp only [List.filter_cons, List.filter_nil]
          rw [if_pos (by simp; omega)]
        rw [hfx, List.map_append, List.map_append, List.sum_append, List.sum_append]
        simp only [List.map_cons, List.map_nil, List.sum_cons, List.sum_nil, Nat.add_zero]
        rw [Nat.mod_add_mod, Nat.mod_add_mod]
      · have hmpm : mp = m0 := by
          rw [← hmp]
          exact min_eq_left (le_of_lt hgt)
        subst hmpm
        simp only [aggStepAsk]
        rw [if_neg (by omega), if_neg (by omega)]
        rw [List.filter_append]
        have hfx : List.filter (fun lv => decide (lv.price = mp)) [x] = [] := by
          simp only [List.filter_cons, List.filter_nil]
          rw [if_neg (by simp; omega)]
        rw [hfx, List.append_nil]

/-- The single pass over the books computes the two sides independently. -/
theorem aggFold_pair (pubBooks : List (Nat × Book)) (a c : Option PriceLevel) :
    pubBooks.foldl
      (fun acc pb => (aggStepBid acc.1 pb.2.bbo.1, aggStepAsk acc.2 pb.2.bbo.2)) (a, c) =
      (pubBooks.foldl (fun acc pb => aggStepBid acc pb.2.bbo.1) a,
       pubBooks.foldl (fun acc pb => aggStepAsk acc pb.2.bbo.2) c) := by
  induction pubBooks generalizing a c with
  | nil => rfl
  | cons pb rest ih =>
    simp only [List.foldl_cons]
    exact ih _ _

/-- Books with an empty bid side are skipped by the merge. -/
theorem aggFold_fmBid (pubBooks : List (Nat × Book)) (a : Option PriceLevel) :
    pubBooks.foldl (fun acc pb => aggStepBid acc pb.2.bbo.1) a =
      (pubBooks.filterMap (fun pb => pb.2.bbo.1)).foldl
        (fun acc lv => aggStepBid acc (some lv)) a := by
  induction pubBooks generalizing a with
  | nil => rfl
  | cons pb rest ih =>
    simp only [List.foldl_cons, List.filterMap_cons]
    cases hb : pb.2.bbo.1 with
    | none =>
      simp only [aggStepBid]
      exact ih a
    | some lv =>
      simp only [List.foldl_cons]
      exact ih _

/-- Books with an empty ask side are skipped by the merge. -/
theorem aggFold_fmAsk (pubBooks : List (Nat × Book)) (a : Option PriceLevel) :
    pubBooks.foldl (fun acc pb => aggStepAsk acc pb.2.bbo.2) a =
      (pubBooks.filterMap (fun pb => pb.2.bbo.2)).foldl
        (fun acc lv => aggStepAsk acc (some lv)) a := by
  induction pubBooks generalizing a with
  | nil => rfl
  | cons pb rest ih =>
    simp only [List.foldl_cons, List.filterMap_cons]
    cases hb : pb.2.bbo.2 with
    | none =>
      simp only [aggStepAsk]
      exact ih a
    | some lv =>
      simp only [List.foldl_cons]
      exact ih _

theorem aggBid_foldSome (bl : List PriceLevel) (ab : PriceLevel) :
    ∃ r, bl.foldl (fun acc lv => aggStepBid acc (some lv)) (some ab) = some r := by
  induction bl generalizing ab with
  | nil => exact ⟨ab, rfl⟩
  | cons lv rest ih =>
    simp only [List.foldl_cons, aggStepBid]
    by_cases h1 : lv.price > ab.price
    · rw [if_pos h1]
      exact ih lv
    · rw [if_neg h1]
      by_cases h2 : lv.price = ab.price
      · rw [if_pos h2]
        exact ih _
      · rw [if_neg h2]
        exact ih ab

theorem aggAsk_foldSome (bl : List PriceLevel) (ab : PriceLevel) :
    ∃ r, bl.foldl (fun acc lv => aggStepAsk acc (some lv)) (some ab) = some r := by
  induction bl generalizing ab with
  | nil => exact ⟨ab, rfl⟩
  | cons lv rest ih =>
    simp only [List.foldl_cons, aggStepAsk]
    by_cases h1 : lv.price < ab.price
    · rw [if_pos h1]
      exact ih lv
    · rw [if_neg h1]
      by_cases h2 : lv.price = ab.price
      · rw [if_pos h2]
        exact ih _
      · rw [if_neg h2]
        exact ih ab

/-! ### Concrete messages and states used by counterexamples and witnesses -/

/-- A plain limit-order message with the given fields. -/
def mkMsg (oid : Nat) (s : Side) (p : Int) (sz : Nat) (a : Action) : Msg :=
  { order_id := oid, price := p, size := sz, side := s, action := some a,
    is_tob := false, is_last := false, instrument_id := 0, publisher := 0 }

/-- A top-of-book message with the given fields. -/
def mkTobMsg (oid : Nat) (s : Side) (p : Int) (sz : Nat) (a : Action) : Msg :=
  { order_id := oid, price := p, size := sz, side := s, action := some a,
    is_tob := true, is_last := false, instrument_id := 0, publisher := 0 }

/-! ### Claim theorems -/

/-- C1, counterexample: from the empty book, two Adds and a Modify that
raises the bid to 102 all succeed, yet leave max bid 102 against min ask
101 — the book rests crossed after a successful apply. -/
theorem c1_cex :
    okRunB Book.empty
      [mkMsg 1 Side.bid 100 10 Action.add, mkMsg 2 Side.ask 101 5 Action.add,
       mkMsg 1 Side.bid 102 10 Action.modify] = true ∧
    maxKey? (runBook Book.empty
      [mkMsg 1 Side.bid 100 10 Action.add, mkMsg 2 Side.ask 101 5 Action.add,
       mkMsg 1 Side.bid 102 10 Action.modify]).bids = some 102 ∧
    minKey? (runBook Book.empty
      [mkMsg 1 Side.bid 100 10 Action.add, mkMsg 2 Side.ask 101 5 Action.add,
       mkMsg 1 Side.bid 102 10 Action.modify]).offers = some 101 ∧
    ¬ ((102 : Int) < 101) := by
  refine ⟨by decide, by decide, by decide, by decide⟩

/-- C1, amended: after every message whose action is a non-TOB Add and whose
apply succeeds, the book is non-crossed (crossed-book repair runs on exactly
this path; Modify and TOB Add do not trigger it). -/
theorem c1_noncrossed_after_add (b : Book) (m : Msg)
    (hact : m.action = some Action.add) (htob : m.is_tob = false)
    (hOk : isOk (b.apply m).2 = true) : NonCrossed (b.apply m).1 := by
  have hres : (b.apply m).1 = (b.add m).1 := by
    simp [Book.apply, hact]
  have hOk2 : isOk (b.add m).2 = true := by
    simp [Book.apply, hact] at hOk
    exact hOk
  rw [hres]
  by_cases hpu : m.price = UNDEF_PRICE
  · exfalso
    simp [Book.add, htob, hpu, isOk] at hOk2
  by_cases hdup : alContains m.order_id b.orders_by_id = true
  · exfalso
    simp [Book.add, htob, hpu, hdup, isOk] at hOk2
  cases hside : m.side with
  | noSide =>
    exfalso
    simp [Book.add, htob, hpu, hdup, hside, isOk] at hOk2
  | bid =>
    have h2 : (b.add m).1 =
        (({ b with orders_by_id := alInsert m.order_id (m.side, m.price) b.orders_by_id } : Book).setSide
          Side.bid (alUpsert m.price [] (fun lv => lv ++ [m]) (b.getSide Side.bid))).matchCrossedOrders := by
      simp [Book.add, htob, hpu, hdup, hside, Book.getSide]
    rw [h2]
    exact matchCrossed_nonCrossed _
  | ask =>
    have h2 : (b.add m).1 =
        (({ b with orders_by_id := alInsert m.order_id (m.side, m.price) b.orders_by_id } : Book).setSide
          Side.ask (alUpsert m.price [] (fun lv => lv ++ [m]) (b.getSide Side.ask))).matchCrossedOrders := by
      simp [Book.add, htob, hpu, hdup, hside, Book.getSide]
    rw [h2]
    exact matchCrossed_nonCrossed _

/-- C1, witness: concrete instance of the amended theorem — an Add at 102
into a book quoting 100/101 succeeds and leaves a non-crossed book. -/
theorem c1_wit :
    isOk ((runBook Book.empty
      [mkMsg 1 Side.bid 100 10 Action.add, mkMsg 2 Side.ask 101 5 Action.add]).apply
        (mkMsg 3 Side.bid 102 7 Action.add)).2 = true ∧
    NonCrossed ((runBook Book.empty
      [mkMsg 1 Side.bid 100 10 Action.add, mkMsg 2 Side.ask 101 5 Action.add]).apply
        (mkMsg 3 Side.bid 102 7 Action.add)).1 :=
  ⟨by decide, c1_noncrossed_after_add _ _ rfl rfl (by decide)⟩

/-- C2, counterexample: a TOB Add clears the bid side's levels but not
`orders_by_id`; the surviving entry 1 ↦ (Bid, 100) points at a level that no
longer exists, so the id index and the side indexes are not bijective even
though every apply succeeded. -/
theorem c2_cex :
    okRunB Book.empty
      [mkMsg 1 Side.bid 100 10 Action.add, mkTobMsg 999 Side.bid 105 3 Action.add] = true ∧
    alGet 1 (runBook Book.empty
      [mkMsg 1 Side.bid 100 10 Action.add,
       mkTobMsg 999 Side.bid 105 3 Action.add]).orders_by_id = some (Side.bid, 100) ∧
    alGet 100 ((runBook Book.empty
      [mkMsg 1 Side.bid 100 10 Action.add,
       mkTobMsg 999 Side.bid 105 3 Action.add]).getSide Side.bid) = none := by
  refine ⟨by decide, by decide, by decide⟩

/-- C2, amended: after every successfully applied message of a run that
contains no TOB Add and whose Modifies keep each resting order's side, the
id index and the side indexes are bijective: every `orders_by_id` entry
points to an existing level containing its id, every resting order is
indexed at its level's (side, price), levels have no duplicate ids, and no
id rests in two distinct levels. -/
theorem c2_bijection (ms : List Msg) (hrun : goodRunB Book.empty ms = true) :
    Inv (runBook Book.empty ms) ∧
    (∀ oid s p lv s2 p2 lv2,
      alGet p ((runBook Book.empty ms).getSide s) = some lv → oid ∈ levelIds lv →
      alGet p2 ((runBook Book.empty ms).getSide s2) = some lv2 → oid ∈ levelIds lv2 →
      s = s2 ∧ p = p2 ∧ lv = lv2) := by
  have hInv := inv_goodRun ms Book.empty inv_empty hrun
  refine ⟨hInv, ?_⟩
  intro oid s p lv s2 p2 lv2 h1 hm1 h2 hm2
  have e1 := invB_levelMem hInv.2.1 h1 hm1
  have e2 := invB_levelMem hInv.2.1 h2 hm2
  rw [e1] at e2
  simp only [Option.some.injEq, Prod.mk.injEq] at e2
  obtain ⟨hs, hp⟩ := e2
  refine ⟨hs, hp, ?_⟩
  rw [hs, hp] at h1
  rw [h1] at h2
  simp only [Option.some.injEq] at h2
  exact h2

/-- C2, witness: a run of Adds, a partial Cancel and a same-side Modify
satisfies the restriction, and the bijection invariant holds at the end. -/
theorem c2_wit :
    goodRunB Book.empty
      [mkMsg 1 Side.bid 100 10 Action.add, mkMsg 2 Side.ask 101 5 Action.add,
       mkMsg 1 Side.bid 100 4 Action.cancel, mkMsg 2 Side.ask 103 5 Action.modify] = true ∧
    Inv (runBook Book.empty
      [mkMsg 1 Side.bid 100 10 Action.add, mkMsg 2 Side.ask 101 5 Action.add,
       mkMsg 1 Side.bid 100 4 Action.cancel, mkMsg 2 Side.ask 103 5 Action.modify]) :=
  ⟨by decide, (c2_bijection _ (by decide)).1⟩

/-- C3: the code keeps queue priority on a same-price size increase.  With
orders 1 (size 10) then 2 (size 5) resting at Bid 100, Modify(1, Bid, 100,
size 20) succeeds and leaves queue_pos(2) = 20 and queue_pos(1) = 0: order 1
kept the front of the queue, where the specified priority rule (spec S6)
requires it to be requeued to the tail, making queue_pos(2) = 0. -/
theorem c3_sizeIncrease_keepsPriority :
    isOk ((runBook Book.empty
      [mkMsg 1 Side.bid 100 10 Action.add, mkMsg 2 Side.bid 100 5 Action.add]).apply
        (mkMsg 1 Side.bid 100 20 Action.modify)).2 = true ∧
    ((runBook Book.empty
      [mkMsg 1 Side.bid 100 10 Action.add, mkMsg 2 Side.bid 100 5 Action.add]).apply
        (mkMsg 1 Side.bid 100 20 Action.modify)).1.queuePos 2 = some 20 ∧
    ((runBook Book.empty
      [mkMsg 1 Side.bid 100 10 Action.add, mkMsg 2 Side.bid 100 5 Action.add]).apply
        (mkMsg 1 Side.bid 100 20 Action.modify)).1.queuePos 1 = some 0 := by
  refine ⟨by decide, by decide, by decide⟩

/-- C10, counterexample: a duplicate Add fails with an error, yet the failed
call has overwritten the id-index entry of order 1 from (Bid, 100) to
(Ask, 200): the book is not exactly as it was before the call. -/
theorem c10_cex :
    ((runBook Book.empty [mkMsg 1 Side.bid 100 10 Action.add]).apply
      (mkMsg 1 Side.ask 200 5 Action.add)).2 = Except.error "Duplicate order ID" ∧
    ((runBook Book.empty [mkMsg 1 Side.bid 100 10 Action.add]).apply
      (mkMsg 1 Side.ask 200 5 Action.add)).1 ≠
      runBook Book.empty [mkMsg 1 Side.bid 100 10 Action.add] ∧
    alGet 1 ((runBook Book.empty [mkMsg 1 Side.bid 100 10 Action.add]).apply
      (mkMsg 1 Side.ask 200 5 Action.add)).1.orders_by_id = some (Side.ask, 200) := by
  refine ⟨by decide, by decide, by decide⟩

/-- C4: crossed-book repair semantics.  (i) The repair loop always leaves a
non-crossed book (in particular it terminates: `matchCrossedOrders` is a
total function).  (ii) When the book is already non-crossed — either side
empty, or max bid < min ask — the loop exits immediately without change.
(iii) Every successful non-TOB Add runs the repair, so the book it leaves is
non-crossed. -/
theorem c4_crossed_repair :
    (∀ b : Book, NonCrossed b.matchCrossedOrders) ∧
    (∀ b : Book, NonCrossed b → b.matchCrossedOrders = b) ∧
    (∀ (b : Book) (m : Msg), m.action = some Action.add → m.is_tob = false →
      isOk (b.apply m).2 = true → NonCrossed (b.apply m).1) := by
  refine ⟨matchCrossed_nonCrossed, fun b h => matchCrossed_of_nonCrossed h, ?_⟩
  intro b m hact htob hOk
  have hres : (b.apply m).1 = (b.add m).1 := by
    simp [Book.apply, hact]
  have hOk2 : isOk (b.add m).2 = true := by
    simp [Book.apply, hact] at hOk
    exact hOk
  rw [hres]
  by_cases hpu : m.price = UNDEF_PRICE
  · exfalso
    simp [Book.add, htob, hpu, isOk] at hOk2
  by_cases hdup : alContains m.order_id b.orders_by_id = true
  · exfalso
    simp [Book.add, htob, hpu, hdup, isOk] at hOk2
  cases hside : m.side with
  | noSide =>
    exfalso
    simp [Book.add, htob, hpu, hdup, hside, isOk] at hOk2
  | bid =>
    have h2 : (b.add m).1 =
        (({ b with orders_by_id := alInsert m.order_id (m.side, m.price) b.orders_by_id } : Book).setSide
          Side.bid (alUpsert m.price [] (fun lv => lv ++ [m]) (b.getSide Side.bid))).matchCrossedOrders := by
      simp [Book.add, htob, hpu, hdup, hside, Book.getSide]
    rw [h2]
    exact matchCrossed_nonCrossed _
  | ask =>
    have h2 : (b.add m).1 =
        (({ b with orders_by_id := alInsert m.order_id (m.side, m.price) b.orders_by_id } : Book).setSide
          Side.ask (alUpsert m.price [] (fun lv => lv ++ [m]) (b.getSide Side.ask))).matchCrossedOrders := by
      simp [Book.add, htob, hpu, hdup, hside, Book.getSide]
    rw [h2]
    exact matchCrossed_nonCrossed _

/-- C4, witness: the empty book is non-crossed, so repair leaves it alone;
instantiating part (ii) at the empty book. -/
theorem c4_wit : Book.empty.matchCrossedOrders = Book.empty :=
  c4_crossed_repair.2.1 Book.empty
    (fun bp ap h1 _ => by simp [Book.empty, maxKey?] at h1)

/-- C5: a Cancel whose level is missing (including an invalid side, whose
level lookup fails the same way) or whose order id is not found in the
level, and a Modify whose order id is unknown, are pre-snapshot messages:
the inner routine reports a skip (`some ()`), `Book::apply` returns success
rather than an error, and the book is returned completely unchanged. -/
theorem c5_preSnapshot_skip (b : Book) (m : Msg) :
    (m.action = some Action.cancel →
      (∀ lv, alGet m.price (b.getSide m.side) = some lv →
        lv.findIdx? (fun o => o.order_id = m.order_id) = none) →
      b.cancel m = (b, Except.ok (some ())) ∧ b.apply m = (b, Except.ok ())) ∧
    (m.action = some Action.modify →
      alGet m.order_id b.orders_by_id = none →
      b.modify m = (b, Except.ok (some ())) ∧ b.apply m = (b, Except.ok ())) := by
  constructor
  · intro hact hskip
    have hc : b.cancel m = (b, Except.ok (some ())) := by
      cases hside : m.side with
      | noSide => simp [Book.cancel, hside]
      | bid =>
        rw [hside] at hskip
        cases hlev : alGet m.price (b.getSide Side.bid) with
        | none =>
          simp only [Book.getSide] at hlev
          simp [Book.cancel, hside, hlev, Book.getSide]
        | some lv =>
          have hf := hskip lv hlev
          simp only [Book.getSide] at hlev
          simp [Book.cancel, hside, hlev, hf, Book.getSide]
      | ask =>
        rw [hside] at hskip
        cases hlev : alGet m.price (b.getSide Side.ask) with
        | none =>
          simp only [Book.getSide] at hlev
          simp [Book.cancel, hside, hlev, Book.getSide]
        | some lv =>
          have hf := hskip lv hlev
          simp only [Book.getSide] at hlev
          simp [Book.cancel, hside, hlev, hf, Book.getSide]
    exact ⟨hc, by simp [Book.apply, hact, hc]⟩
  · intro hact hnone
    have hm : b.modify m = (b, Except.ok (some ())) := by
      simp [Book.modify, hnone]
    exact ⟨hm, by simp [Book.apply, hact, hm]⟩

/-- C5, witness: spec scenario S4 — a Cancel against the empty book is
skipped with no state change and no error. -/
theorem c5_wit :
    Book.empty.cancel (mkMsg 42 Side.bid 99 1 Action.cancel) =
      (Book.empty, Except.ok (some ())) ∧
    Book.empty.apply (mkMsg 42 Side.bid 99 1 Action.cancel) =
      (Book.empty, Except.ok ()) :=
  (c5_preSnapshot_skip Book.empty (mkMsg 42 Side.bid 99 1 Action.cancel)).1 rfl
    (fun lv hlv => by simp [Book.empty, Book.getSide, alGet] at hlv)

/-- C10, amended: apply-level errors from a missing action, an invalid side
on a TOB Add, `UNDEF_PRICE` on a non-TOB Add, and every Cancel error
(cancel-exceeds-size in particular) leave the book exactly unchanged; but a
duplicate-order Add overwrites the id-index entry before failing, and a
failing Modify can leave the id index updated and the order moved (see the
counterexample). -/
theorem c10_error_atomicity (b : Book) (m : Msg) :
    (m.action = none → b.apply m = (b, Except.error "MBO message has no valid action")) ∧
    (m.action = some Action.add → m.is_tob = true → m.side = Side.noSide →
      b.apply m = (b, Except.error "Invalid side None")) ∧
    (m.action = some Action.add → m.is_tob = false → m.price = UNDEF_PRICE →
      b.apply m = (b, Except.error "Price cannot be UNDEF_PRICE for non-TOB add")) ∧
    (m.action = some Action.cancel → ∀ e, (b.apply m).2 = Except.error e →
      (b.apply m).1 = b) := by
  refine ⟨?_, ?_, ?_, ?_⟩
  · intro hact
    simp [Book.apply, hact]
  · intro hact htob hside
    simp [Book.apply, Book.add, hact, htob, hside]
  · intro hact htob hpu
    simp [Book.apply, Book.add, hact, htob, hpu]
  · intro hact e herr
    have hcan : ∀ e2, (b.cancel m).2 = Except.error e2 → (b.cancel m).1 = b := by
      intro e2 h2
      cases hside : m.side with
      | noSide =>
        simp [Book.cancel, hside] at h2
      | bid =>
        cases hlev : alGet m.price (b.getSide Side.bid) with
        | none =>
          simp only [Book.getSide] at hlev
          simp [Book.cancel, hside, hlev, Book.getSide]
        | some lv =>
          cases hfind : lv.findIdx? (fun o => o.order_id = m.order_id) with
          | none =>
            simp only [Book.getSide] at hlev
            simp [Book.cancel, hside, hlev, hfind, Book.getSide]
          | some idx =>
            cases hget : lv[idx]? with
            | none =>
              simp only [Book.getSide] at hlev
              simp [Book.cancel, hside, hlev, hfind, hget, Book.getSide]
            | some ex =>
              by_cases hsz : ex.size < m.size
              · simp only [Book.getSide] at hlev
                simp [Book.cancel, hside, hlev, hfind, hget, hsz, Book.getSide]
              · exfalso
                simp only [Book.getSide] at hlev
                by_cases hz : ex.size - m.size = 0 <;>
                  simp [Book.cancel, hside, hlev, hfind, hget, hsz, hz, Book.getSide] at h2
      | ask =>
        cases hlev : alGet m.price (b.getSide Side.ask) with
        | none =>
          simp only [Book.getSide] at hlev
          simp [Book.cancel, hside, hlev, Book.getSide]
        | some lv =>
          cases hfind : lv.findIdx? (fun o => o.order_id = m.order_id) with
          | none =>
            simp only [Book.getSide] at hlev
            simp [Book.cancel, hside, hlev, hfind, Book.getSide]
          | some idx =>
            cases hget : lv[idx]? with
            | none =>
              simp only [Book.getSide] at hlev
              simp [Book.cancel, hside, hlev, hfind, hget, Book.getSide]
            | some ex =>
              by_cases hsz : ex.size < m.size
              · simp only [Book.getSide] at hlev
                simp [Book.cancel, hside, hlev, hfind, hget, hsz, Book.getSide]
              · exfalso
                simp only [Book.getSide] at hlev
                by_cases hz : ex.size - m.size = 0 <;>
                  simp [Book.cancel, hside, hlev, hfind, hget, hsz, hz, Book.getSide] at h2
    rcases hc : b.cancel m with ⟨b2, r⟩
    cases r with
    | ok v =>
      exfalso
      simp [Book.apply, hact, hc] at herr
    | error e2 =>
      have := hcan e2 (by rw [hc])
      rw [hc] at this
      simp only at this
      simp [Book.apply, hact, hc, this]

/-- C10, witness: a cancel whose size exceeds the resting order's size
errors and leaves the book unchanged. -/
theorem c10_wit :
    ((runBook Book.empty [mkMsg 1 Side.bid 100 5 Action.add]).apply
      (mkMsg 1 Side.bid 100 9 Action.cancel)).1 =
      runBook Book.empty [mkMsg 1 Side.bid 100 5 Action.add] :=
  (c10_error_atomicity _ _).2.2.2 rfl "Cancel size exceeds existing order size" (by decide)

theorem lstEraseIdxSet {α : Type} (l : List α) (i : Nat) (a : α) :
    (l.set i a).eraseIdx i = l.eraseIdx i := by
  induction l generalizing i with
  | nil => simp
  | cons x xs ih =>
    cases i with
    | zero => simp
    | succ j =>
      simp only [List.set, List.eraseIdx]
      rw [ih]

/-- C6: a Cancel that finds the resting order `ex` fails with a
cancel-exceeds-size error when `ex.size < m.size` and changes nothing;
otherwise it succeeds, decrements the resting size by `m.size`, and exactly
when the result is zero it removes the order from its level, erases the
level from the side index when that empties it, and drops the id from
`orders_by_id`. -/
theorem c6_cancel_found (b : Book) (m : Msg) (lv : Level) (idx : Nat) (ex : Msg)
    (hlev : alGet m.price (b.getSide m.side) = some lv)
    (hfind : lv.findIdx? (fun o => o.order_id = m.order_id) = some idx)
    (hget : lv.get? idx = some ex) :
    (ex.size < m.size →
      b.cancel m = (b, Except.error "Cancel size exceeds existing order size")) ∧
    (¬ ex.size < m.size →
      ((b.cancel m).2 = Except.ok none ∧
       (ex.size - m.size = 0 →
         alGet m.order_id (b.cancel m).1.orders_by_id = none ∧
         alGet m.price ((b.cancel m).1.getSide m.side) =
           (if (lv.eraseIdx idx).isEmpty then none else some (lv.eraseIdx idx))) ∧
       (ex.size - m.size ≠ 0 →
         (b.cancel m).1.orders_by_id = b.orders_by_id ∧
         alGet m.price ((b.cancel m).1.getSide m.side) =
           some (lv.set idx { ex with size := ex.size - m.size })))) := by
  have hget9 : lv[idx]? = some ex := by
    rw [← List.get?_eq_getElem?]
    exact hget
  cases hside : m.side with
  | noSide =>
    rw [hside] at hlev
    simp [Book.getSide, alGet] at hlev
  | bid =>
    rw [hside] at hlev
    simp only [Book.getSide] at hlev
    constructor
    · intro hsz
      simp [Book.cancel, hside, hlev, hfind, hget9, hsz, Book.getSide]
    · intro hsz
      by_cases hz : ex.size - m.size = 0
      · have hres : b.cancel m =
            ({ (b.setSide Side.bid
                (if ((lv.set idx { ex with size := ex.size - m.size }).eraseIdx idx).isEmpty
                  then alErase m.price (b.getSide Side.bid)
                  else alInsert m.price
                    ((lv.set idx { ex with size := ex.size - m.size }).eraseIdx idx)
                    (b.getSide Side.bid))) with
              orders_by_id := alErase m.order_id b.orders_by_id }, Except.ok none) := by
          simp [Book.cancel, hside, hlev, hfind, hget9, hsz, hz, Book.getSide, Book.setSide]
        rw [hres]
        refine ⟨rfl, fun _ => ⟨alGet_erase_self _ _, ?_⟩, fun hne => absurd hz hne⟩
        rw [getSide_withIds, getSide_update b (by decide), if_pos rfl]
        rw [lstEraseIdxSet]
        by_cases hemp : (lv.eraseIdx idx).isEmpty
        · rw [if_pos hemp, if_pos hemp]
          exact alGet_erase_self _ _
        · rw [if_neg hemp, if_neg hemp]
          exact alGet_insert_self _ _ _
      · have hres : b.cancel m =
            (b.setSide Side.bid
              (alInsert m.price (lv.set idx { ex with size := ex.size - m.size })
                (b.getSide Side.bid)), Except.ok none) := by
          simp [Book.cancel, hside, hlev, hfind, hget9, hsz, hz, Book.getSide, Book.setSide]
        rw [hres]
        refine ⟨rfl, fun hcon => absurd hcon hz, fun _ => ⟨orders_setSide _ _ _, ?_⟩⟩
        rw [getSide_update b (by decide), if_pos rfl]
        exact alGet_insert_self _ _ _
  | ask =>
    rw [hside] at hlev
    simp only [Book.getSide] at hlev
    constructor
    · intro hsz
      simp [Book.cancel, hside, hlev, hfind, hget9, hsz, Book.getSide]
    · intro hsz
      by_cases hz : ex.size - m.size = 0
      · have hres : b.cancel m =
            ({ (b.setSide Side.ask
                (if ((lv.set idx { ex with size := ex.size - m.size }).eraseIdx idx).isEmpty
                  then alErase m.price (b.getSide Side.ask)
                  else alInsert m.price
                    ((lv.set idx { ex with size := ex.size - m.size }).eraseIdx idx)
                    (b.getSide Side.ask))) with
              orders_by_id := alErase m.order_id b.orders_by_id }, Except.ok none) := by
          simp [Book.cancel, hside, hlev, hfind, hget9, hsz, hz, Book.getSide, Book.setSide]
        rw [hres]
        refine ⟨rfl, fun _ => ⟨alGet_erase_self _ _, ?_⟩, fun hne => absurd hz hne⟩
        rw [getSide_withIds, getSide_update b (by decide), if_pos rfl]
        rw [lstEraseIdxSet]
        by_cases hemp : (lv.eraseIdx idx).isEmpty
        · rw [if_pos hemp, if_pos hemp]
          exact alGet_erase_self _ _
        · rw [if_neg hemp, if_neg hemp]
          exact alGet_insert_self _ _ _
      · have hres : b.cancel m =
            (b.setSide Side.ask
              (alInsert m.price (lv.set idx { ex with size := ex.size - m.size })
                (b.getSide Side.ask)), Except.ok none) := by
          simp [Book.cancel, hside, hlev, hfind, hget9, hsz, hz, Book.getSide, Book.setSide]
        rw [hres]
        refine ⟨rfl, fun hcon => absurd hcon hz, fun _ => ⟨orders_setSide _ _ _, ?_⟩⟩
        rw [getSide_update b (by decide), if_pos rfl]
        exact alGet_insert_self _ _ _

/-- C6, witness: spec scenario S2 — a partial cancel of 4 against a resting
order of size 10 succeeds without error. -/
theorem c6_wit :
    ((runBook Book.empty [mkMsg 1 Side.bid 100 10 Action.add]).cancel
      (mkMsg 1 Side.bid 100 4 Action.cancel)).2 = Except.ok none :=
  ((c6_cancel_found (runBook Book.empty [mkMsg 1 Side.bid 100 10 Action.add])
      (mkMsg 1 Side.bid 100 4 Action.cancel)
      [mkMsg 1 Side.bid 100 10 Action.add] 0 (mkMsg 1 Side.bid 100 10 Action.add)
      (by decide) (by decide) (by decide)).2 (by decide)).1

/-- C7: a TOB Add with a valid side succeeds; the whole side index is
replaced — by the empty map on the `UNDEF_PRICE` sentinel, and by the single
level `[(price, [msg])]` otherwise; `orders_by_id` never changes; and a TOB
order contributes its size but not its count to any `PriceLevel` computed
over a level containing it. -/
theorem c7_tob_add (b : Book) (m : Msg) (hact : m.action = some Action.add)
    (htob : m.is_tob = true) (hside : m.side ≠ Side.noSide) :
    (b.apply m).2 = Except.ok () ∧
    (b.apply m).1.orders_by_id = b.orders_by_id ∧
    (m.price = UNDEF_PRICE → (b.apply m).1.getSide m.side = []) ∧
    (m.price ≠ UNDEF_PRICE → (b.apply m).1.getSide m.side = [(m.price, [m])]) ∧
    (∀ (p : Int) (os : List Msg),
      (PriceLevel.new p (os ++ [m])).count = (PriceLevel.new p os).count ∧
      (PriceLevel.new p (os ++ [m])).size =
        ((PriceLevel.new p os).size + m.size) % U32MOD) := by
  have hpl : ∀ (p : Int) (os : List Msg),
      (PriceLevel.new p (os ++ [m])).count = (PriceLevel.new p os).count ∧
      (PriceLevel.new p (os ++ [m])).size =
        ((PriceLevel.new p os).size + m.size) % U32MOD := by
    intro p os
    constructor
    · simp [PriceLevel.new, List.foldl_append, htob]
    · simp [PriceLevel.new, List.foldl_append, htob]
  cases hs : m.side with
  | noSide => exact absurd hs hside
  | bid =>
    have hres1 : (b.apply m).1 =
        b.setSide Side.bid (if m.price ≠ UNDEF_PRICE then [(m.price, [m])] else []) := by
      simp [Book.apply, Book.add, hact, htob, hs]
    have hres2 : (b.apply m).2 = Except.ok () := by
      simp [Book.apply, Book.add, hact, htob, hs]
    rw [hres1, hres2]
    refine ⟨rfl, orders_setSide _ _ _, ?_, ?_, hpl⟩
    · intro hpu
      rw [getSide_update b (by decide), if_pos rfl, if_neg (by simp [hpu])]
    · intro hpu
      rw [getSide_update b (by decide), if_pos rfl, if_pos hpu]
  | ask =>
    have hres1 : (b.apply m).1 =
        b.setSide Side.ask (if m.price ≠ UNDEF_PRICE then [(m.price, [m])] else []) := by
      simp [Book.apply, Book.add, hact, htob, hs]
    have hres2 : (b.apply m).2 = Except.ok () := by
      simp [Book.apply, Book.add, hact, htob, hs]
    rw [hres1, hres2]
    refine ⟨rfl, orders_setSide _ _ _, ?_, ?_, hpl⟩
    · intro hpu
      rw [getSide_update b (by decide), if_pos rfl, if_neg (by simp [hpu])]
    · intro hpu
      rw [getSide_update b (by decide), if_pos rfl, if_pos hpu]

/-- C7, witness: a TOB Add at Bid 105 over a book holding a resting bid at
100 replaces the whole bid side with the single TOB level and leaves
`orders_by_id` (still holding order 1) untouched. -/
theorem c7_wit :
    ((runBook Book.empty [mkMsg 1 Side.bid 100 10 Action.add]).apply
      (mkTobMsg 999 Side.bid 105 3 Action.add)).2 = Except.ok () ∧
    ((runBook Book.empty [mkMsg 1 Side.bid 100 10 Action.add]).apply
      (mkTobMsg 999 Side.bid 105 3 Action.add)).1.orders_by_id =
      (runBook Book.empty [mkMsg 1 Side.bid 100 10 Action.add]).orders_by_id := by
  have h := c7_tob_add (runBook Book.empty [mkMsg 1 Side.bid 100 10 Action.add])
    (mkTobMsg 999 Side.bid 105 3 Action.add) rfl rfl (by decide)
  exact ⟨h.1, h.2.1⟩

/-- C8: `aggregated_bbo` merges the per-publisher book BBOs per side.  With
no books for the instrument it returns (none, none).  Otherwise, per side:
the result is `none` exactly when that side is empty across all books, and
when best-bid prices exist the aggregated bid is the level at the maximum
price with the sizes and counts of all books tied at that price summed
(u32 wrapping); the aggregated ask is at the minimum price, ties merged
identically. -/
theorem c8_aggregated_bbo (mkt : Market) (iid : Nat) :
    (mkt.booksByPub iid = none → mkt.aggregatedBbo iid = (none, none)) ∧
    (∀ pubBooks, mkt.booksByPub iid = some pubBooks →
      (((mkt.aggregatedBbo iid).1 = none ↔
          pubBooks.filterMap (fun pb => pb.2.bbo.1) = []) ∧
        ∀ mp, listMax? ((pubBooks.filterMap (fun pb => pb.2.bbo.1)).map PriceLevel.price) =
            some mp →
          (mkt.aggregatedBbo iid).1 = some
            { price := mp
              size := (((pubBooks.filterMap (fun pb => pb.2.bbo.1)).filter
                  (fun lv => lv.price = mp)).map PriceLevel.size).sum % U32MOD
              count := (((pubBooks.filterMap (fun pb => pb.2.bbo.1)).filter
                  (fun lv => lv.price = mp)).map PriceLevel.count).sum % U32MOD }) ∧
      (((mkt.aggregatedBbo iid).2 = none ↔
          pubBooks.filterMap (fun pb => pb.2.bbo.2) = []) ∧
        ∀ mp, listMin? ((pubBooks.filterMap (fun pb => pb.2.bbo.2)).map PriceLevel.price) =
            some mp →
          (mkt.aggregatedBbo iid).2 = some
            { price := mp
              size := (((pubBooks.filterMap (fun pb => pb.2.bbo.2)).filter
                  (fun lv => lv.price = mp)).map PriceLevel.size).sum % U32MOD
              count := (((pubBooks.filterMap (fun pb => pb.2.bbo.2)).filter
                  (fun lv => lv.price = mp)).map PriceLevel.count).sum % U32MOD })) := by
  cases hbp : mkt.booksByPub iid with
  | none =>
    constructor
    · intro _
      simp [Market.aggregatedBbo, hbp]
    · intro pubBooks heq
      simp at heq
  | some pb0 =>
    constructor
    · intro hc
      simp at hc
    · intro pubBooks heq
      have hbp2 : mkt.booksByPub iid = some pubBooks := hbp.trans heq
      have hagg : mkt.aggregatedBbo iid =
          pubBooks.foldl
            (fun acc pb => (aggStepBid acc.1 pb.2.bbo.1, aggStepAsk acc.2 pb.2.bbo.2))
            (none, none) := by
        simp [Market.aggregatedBbo, hbp2]
      have h1 : (mkt.aggregatedBbo iid).1 =
          (pubBooks.filterMap (fun pb => pb.2.bbo.1)).foldl
            (fun acc lv => aggStepBid acc (some lv)) none := by
        rw [hagg, aggFold_pair]
        exact aggFold_fmBid pubBooks none
      have h2 : (mkt.aggregatedBbo iid).2 =
          (pubBooks.filterMap (fun pb => pb.2.bbo.2)).foldl
            (fun acc lv => aggStepAsk acc (some lv)) none := by
        rw [hagg, aggFold_pair]
        exact aggFold_fmAsk pubBooks none
      have hbndB : ∀ lv ∈ pubBooks.filterMap (fun pb => pb.2.bbo.1),
          lv.size < U32MOD ∧ lv.count < U32MOD := by
        intro lv hm
        rw [List.mem_filterMap] at hm
        obtain ⟨pb, _, hsome⟩ := hm
        exact bboBid_bounds hsome
      have hbndA : ∀ lv ∈ pubBooks.filterMap (fun pb => pb.2.bbo.2),
          lv.size < U32MOD ∧ lv.count < U32MOD := by
        intro lv hm
        rw [List.mem_filterMap] at hm
        obtain ⟨pb, _, hsome⟩ := hm
        exact bboAsk_bounds hsome
      refine ⟨⟨?_, ?_⟩, ?_, ?_⟩
      · constructor
        · intro hnone
          cases hfm : pubBooks.filterMap (fun pb => pb.2.bbo.1) with
          | nil => rfl
          | cons y rest =>
            exfalso
            rw [h1, hfm] at hnone
            simp only [List.foldl_cons] at hnone
            obtain ⟨r, hr⟩ := aggBid_foldSome rest y
            have : aggStepBid none (some y) = some y := rfl
            rw [this, hr] at hnone
            cases hnone
        · intro hnil
          rw [h1, hnil]
          rfl
      · intro mp hmp
        rw [h1]
        exact aggBid_char _ hbndB mp hmp
      · constructor
        · intro hnone
          cases hfm : pubBooks.filterMap (fun pb => pb.2.bbo.2) with
          | nil => rfl
          | cons y rest =>
            exfalso
            rw [h2, hfm] at hnone
            simp only [List.foldl_cons] at hnone
            obtain ⟨r, hr⟩ := aggAsk_foldSome rest y
            have : aggStepAsk none (some y) = some y := rfl
            rw [this, hr] at hnone
            cases hnone
        · intro hnil
          rw [h2, hnil]
          rfl
      · intro mp hmp
        rw [h2]
        exact aggAsk_char _ hbndA mp hmp

/-- Book of a first publisher quoting best bid 100 with size 3 (one
order). -/
def bookA : Book :=
  { orders_by_id := [(1, (Side.bid, 100))], offers := [],
    bids := [(100, [mkMsg 1 Side.bid 100 3 Action.add])] }

/-- Book of a second publisher quoting best bid 100 with size 4 (one
order). -/
def bookB : Book :=
  { orders_by_id := [(2, (Side.bid, 100))], offers := [],
    bids := [(100, [mkMsg 2 Side.bid 100 4 Action.add])] }

/-- A market with one instrument quoted by two publishers. -/
def mkt0 : Market := { books := [(0, [(7, bookA), (8, bookB)])] }

/-- C8, witness: spec scenario S7 — two publishers both quote best bid 100
with sizes 3 and 4 and counts 1 each; the aggregated best bid is
(100, 7, 2). -/
theorem c8_wit : (mkt0.aggregatedBbo 0).1 =
    some { price := 100, size := 7, count := 2 } := by
  have h := ((c8_aggregated_bbo mkt0 0).2 [(7, bookA), (8, bookB)] (by decide)).1.2
    100 (by decide)
  exact h.trans (by decide)

end MBO
